import Mathlib

/-!
# goenv: a verification development

A shallow embedding of `goenv.go` (package `main`): the constants `usage`,
`script` and `pathExists`, the type `params`, and the functions
`isHelpRequired`, `initEnv` and `main`.

Go strings are Lean strings.  A Go `error` value is an `Option GoError`
(`none` is the nil error).  The calls the program makes into the Go standard
library (`os`, `path/filepath`, `text/template`, `fmt`) are modelled by the
definitions of the namespaces `filepath`, `template` and `os` below; each one
says which library function it stands for and what it leaves out.
-/

namespace Goenv

/-! ## Constants of the program -/

/-- The constant `usage` (goenv.go, lines 14-30). -/
def usage : String :=
  "usage: goenv ENVPATH IMPORT\n" ++
  "\n" ++
  "Create a new isolated development environment for Go.\n" ++
  "\n" ++
  "Version: 1.0.0\n" ++
  "\n" ++
  "Arguments:\n" ++
  "\n" ++
  "    ENVPATH     Path where a new Go environment should be initialized. This\n" ++
  "                value will be set to the GOPATH variable.\n" ++
  "\n" ++
  "    IMPORT      Project import path. Example: github.com/author/projectname\n" ++
  "\n" ++
  "Options:\n" ++
  "\n" ++
  "    --help      Print this message and exit.\n"

/-- The constant `script` (goenv.go, lines 31-59), the template of the
activation script.  Braces are written as escapes. -/
def script : String :=
  "\n" ++
  "# This file must be used with \"source activate\" or \". activate\"\n" ++
  "\n" ++
  "if [[ -n \"$\x7bGOENV+1\x7d\" ]]; then\n" ++
  "\tdeactivate\n" ++
  "fi\n" ++
  "\n" ++
  "export GOENV=\x7b\x7b.ProjectName\x7d\x7d\n" ++
  "export GOENV_OLDPS1=$PS1\n" ++
  "export GOENV_OLDGOPATH=$GOPATH\n" ++
  "export GOENV_OLDPATH=$PATH\n" ++
  "\n" ++
  "export GOPATH=\x7b\x7b.GoPath\x7d\x7d\n" ++
  "export PATH=\"$GOPATH/bin:$PATH\"\n" ++
  "export PS1=\"($(basename $GOPATH))$PS1\"\n" ++
  "\n" ++
  "mkdir -p $(dirname $GOPATH/src/\x7b\x7b.ImportPath\x7d\x7d)\n" ++
  "rm -f $GOPATH/src/\x7b\x7b.ImportPath\x7d\x7d\n" ++
  "ln -s \x7b\x7b.ProjectPath\x7d\x7d $GOPATH/src/\x7b\x7b.ImportPath\x7d\x7d\n" ++
  "\n" ++
  "deactivate() \x7b\n" ++
  "\texport PS1=$GOENV_OLDPS1\n" ++
  "\texport GOPATH=$GOENV_OLDGOPATH\n" ++
  "\texport PATH=$GOENV_OLDPATH\n" ++
  "\n" ++
  "\tunset GOENV GOENV_OLDPS1 GOENV_OLDPATH GOENV_OLDGOPATH\n" ++
  "\tunset -f deactivate\n" ++
  "\x7d\n"

/-- The constant `pathExists` (goenv.go, line 61). -/
def pathExists : String := "unable to initialize new environemnt, path exists"

/-- The struct `params` (goenv.go, lines 64-69). -/
structure params where
  ProjectName : String
  ProjectPath : String
  GoPath : String
  ImportPath : String
deriving DecidableEq, Repr

/-- A non-nil Go `error`: only its message is observable by this program. -/
structure GoError where
  msg : String
deriving DecidableEq, Repr

/-- The call `errors.New(text)`. -/
def errorsNew (text : String) : GoError := ⟨text⟩

/-! ## `text/template`: the fragment used by `script` -/

namespace template

/-- A node of a parsed template: literal text, or the action that prints one
field of the data value. -/
inductive TNode where
  | text (s : String)
  | field (name : String)
deriving DecidableEq, Repr

/-- The left brace, the character of the delimiters. -/
def lbrace : Char := Char.ofNat 123

/-- The right brace. -/
def rbrace : Char := Char.ofNat 125

/-- White space inside an action. -/
def isSpace (c : Char) : Bool := c = ' ' || c = '\t' || c = '\r' || c = '\n'

/-- A character of an identifier. -/
def isAlphaNumeric (c : Char) : Bool := c = '_' || c.isAlphanum

/-- Strip white space at both ends. -/
def trim (cs : List Char) : List Char :=
  ((cs.dropWhile isSpace).reverse.dropWhile isSpace).reverse

/-- The text node for the characters collected so far (in reverse); the lexer
emits no empty text. -/
def textNode (acc : List Char) : List TNode :=
  match acc with
  | [] => []
  | _ :: _ => [TNode.text (String.mk acc.reverse)]

/-- The node of an action from the characters between its delimiters (in
reverse).  The only action of this fragment is a single field, `.Name`. -/
def actionNode (acc : List Char) : Except GoError TNode :=
  match trim acc.reverse with
  | '.' :: c :: cs =>
      if (c :: cs).all isAlphaNumeric then .ok (TNode.field (String.mk (c :: cs)))
      else .error ⟨"template: activate: unsupported action"⟩
  | _ => .error ⟨"template: activate: unsupported action"⟩

/-- The lexer and parser in one pass.  `inAction = false`: reading text up to
the next left delimiter; `inAction = true`: reading an action up to the right
delimiter.  `acc` collects, in reverse, the characters of the current item. -/
def scan : Bool → List Char → List Char → Except GoError (List TNode)
  | false, acc, [] => .ok (textNode acc)
  | false, acc, [c] => .ok (textNode (c :: acc))
  | false, acc, c :: d :: rest =>
      if c = lbrace ∧ d = lbrace then
        match scan true [] rest with
        | .ok ns => .ok (textNode acc ++ ns)
        | .error e => .error e
      else scan false (c :: acc) (d :: rest)
  | true, _, [] => .error ⟨"template: activate: unclosed action"⟩
  | true, _, [_] => .error ⟨"template: activate: unclosed action"⟩
  | true, acc, c :: d :: rest =>
      if c = rbrace ∧ d = rbrace then
        match actionNode acc, scan false [] rest with
        | .ok n, .ok ns => .ok (n :: ns)
        | .error e, _ => .error e
        | _, .error e => .error e
      else scan true (c :: acc) (d :: rest)

/-- The call `template.New("activate").Parse(text)`, for templates made of
text and field actions; any other action is reported as an error. -/
def Parse (text : String) : Except GoError (List TNode) :=
  scan false [] text.data

/-- The value of an exported field of `params`, by name; `none` when `params`
has no such field. -/
def fieldOf (p : params) (name : String) : Option String :=
  if name = "ProjectName" then some p.ProjectName
  else if name = "ProjectPath" then some p.ProjectPath
  else if name = "GoPath" then some p.GoPath
  else if name = "ImportPath" then some p.ImportPath
  else none

/-- The call `t.Execute(&buf, p)` followed by `buf.String()`: text is copied,
a field action prints the field (a string is printed as it is, the package
does no escaping). -/
def Execute : List TNode → params → Except GoError String
  | [], _ => .ok ""
  | TNode.text s :: ns, p =>
      match Execute ns p with
      | .ok out => .ok (s ++ out)
      | .error e => .error e
  | TNode.field f :: ns, p =>
      match fieldOf p f with
      | none => .error ⟨"template: activate: can't evaluate field " ++ f ++ " in type main.params"⟩
      | some v =>
          match Execute ns p with
          | .ok out => .ok (v ++ out)
          | .error e => .error e

end template

/-! ## `path/filepath` (Unix) -/

namespace filepath

/-- The pieces of a path between its separators. -/
def splitSlash : List Char → List (List Char)
  | [] => [[]]
  | c :: cs =>
      if c = '/' then [] :: splitSlash cs
      else
        match splitSlash cs with
        | [] => [[c]]
        | x :: xs => (c :: x) :: xs

/-- The elements of a path that `Clean` keeps apart: the pieces that are
neither empty nor `.`. -/
def elems (s : List Char) : List (List Char) :=
  (splitSlash s).filter (fun e => decide (e ≠ [] ∧ e ≠ ['.']))

/-- One step of `Clean` over the elements read so far (`stack`, last element
first): a `..` removes the element before it, is dropped at the root, and is
kept in a relative path that has nothing left to remove. -/
def step (rooted : Bool) (stack : List (List Char)) (e : List Char) : List (List Char) :=
  if e = ['.', '.'] then
    match stack with
    | [] => if rooted then [] else [e]
    | t :: ts => if t = ['.', '.'] then e :: t :: ts else ts
  else e :: stack

/-- The elements of the cleaned path, in order. -/
def cleanElems (rooted : Bool) (es : List (List Char)) : List (List Char) :=
  (es.foldl (step rooted) []).reverse

/-- Elements joined by the separator. -/
def joinElems : List (List Char) → List Char
  | [] => []
  | [e] => e
  | e :: f :: es => e ++ '/' :: joinElems (f :: es)

/-- The function `filepath.IsAbs`: the path starts with the separator. -/
def IsAbs (path : String) : Bool :=
  match path.data with
  | c :: _ => c = '/'
  | [] => false

/-- The function `filepath.Clean`: the shortest equivalent path by purely
lexical processing; the empty path becomes `.`. -/
def Clean (path : String) : String :=
  let out := joinElems (cleanElems (IsAbs path) (elems path.data))
  if IsAbs path then String.mk ('/' :: out)
  else if out = [] then "." else String.mk out

/-- Strings joined by the separator (`strings.Join(elem, "/")`). -/
def sepJoin : List String → String
  | [] => ""
  | [e] => e
  | e :: f :: es => e ++ "/" ++ sepJoin (f :: es)

/-- The function `filepath.Join`: leading empty elements are ignored, the rest
is joined by the separator and cleaned; the result is empty when every element
is. -/
def Join : List String → String
  | [] => ""
  | e :: es => if e = "" then Join es else Clean (sepJoin (e :: es))

/-- The function `filepath.Base`: the last element of the path, trailing
separators removed first; `.` for the empty path, the separator for a path
made of separators only. -/
def Base (path : String) : String :=
  if path = "" then "."
  else
    let stripped := path.data.reverse.dropWhile (fun c => c = '/')
    let last := (stripped.takeWhile (fun c => c ≠ '/')).reverse
    if last = [] then "/" else String.mk last

end filepath

/-! ## `os`: the file system and the process -/

namespace os

/-- An entry of the file system: a regular file with its permission bits and
content, or a directory with its permission bits and named entries. -/
inductive Node where
  | file (mode : Nat) (content : String)
  | dir (mode : Nat) (children : List (String × Node))

/-- What `Stat` reports of an entry. -/
structure FileInfo where
  isDir : Bool
  mode : Nat
deriving DecidableEq, Repr

/-- The state a run of the program acts on.

* `root`: the directory tree.  There are no symbolic links and the process
  owns every entry.
* `cwd`: the working directory as `os.Getwd` reports it; `none` when it cannot
  be obtained, in which case relative names do not resolve either.
* `free`: how many new entries can still be created; at `0` a creation fails
  (no space left on device).
* `busy`: entries that cannot be removed (device or resource busy).
* `stdout`, `stderr`: what has been written to the two streams.
* `umask`: the file mode creation mask of the process; the permission bits it
  holds are cleared in the mode of every entry the process creates. -/
structure World where
  root : Node
  cwd : Option String
  free : Nat
  busy : List (List String)
  stdout : String
  stderr : String
  umask : Nat

/-- The bit `os.ModeDir`. -/
def ModeDir : Nat := 1 <<< 31

/-- The mask `os.ModePerm`. -/
def ModePerm : Nat := 0o777

/-- The permission bits an entry gets when it is created with `perm` under the
mask `umask`: the nine permission bits of `perm` that the mask does not
hold. -/
def applyUmask (umask perm : Nat) : Nat :=
  (perm &&& ModePerm) &&& (ModePerm ^^^ (umask &&& ModePerm))

/-- The entry named `c` of a directory listing. -/
def child : List (String × Node) → String → Option Node
  | [], _ => none
  | (d, n) :: rest, c => if d = c then some n else child rest c

/-- The listing with the entry `c` set to `n` (replaced, or added at the end). -/
def setChild : List (String × Node) → String → Node → List (String × Node)
  | [], c, n => [(c, n)]
  | (d, m) :: rest, c, n => if d = c then (c, n) :: rest else (d, m) :: setChild rest c n

/-- The listing without the entries named `c`. -/
def dropChild : List (String × Node) → String → List (String × Node)
  | [], _ => []
  | (d, m) :: rest, c => if d = c then dropChild rest c else (d, m) :: dropChild rest c

/-- The entry at a key (the elements of an absolute path), from a node. -/
def find : Node → List String → Option Node
  | n, [] => some n
  | Node.dir _ cs, c :: rest =>
      match child cs c with
      | some m => find m rest
      | none => none
  | Node.file _ _, _ :: _ => none

/-- The tree with the entry at a key set to `v`; `none` when the parent of the
key is missing or is not a directory. -/
def put : Option Node → List String → Node → Option Node
  | _, [], v => some v
  | some (Node.dir m cs), c :: rest, v =>
      match put (child cs c) rest v with
      | some n => some (Node.dir m (setChild cs c n))
      | none => none
  | some (Node.file _ _), _ :: _, _ => none
  | none, _ :: _, _ => none

/-- The tree without the entry at a key and everything beneath it. -/
def del : Node → List String → Node
  | n, [] => n
  | Node.dir m cs, [c] => Node.dir m (dropChild cs c)
  | Node.dir m cs, c :: d :: rest =>
      match child cs c with
      | some ch => Node.dir m (setChild cs c (del ch (d :: rest)))
      | none => Node.dir m cs
  | Node.file m s, _ :: _ => Node.file m s

/-- The `FileInfo` of an entry. -/
def info : Node → FileInfo
  | Node.file m _ => ⟨false, m⟩
  | Node.dir m _ => ⟨true, m⟩

/-- Whether `k` starts with the key `p`. -/
def under (p : List String) (k : List String) : Bool :=
  match p, k with
  | [], _ => true
  | _ :: _, [] => false
  | a :: p', b :: k' => a = b && under p' k'

/-- The name of a key, for messages. -/
def keyName (k : List String) : String := "/" ++ filepath.sepJoin k

/-- The function `os.Getwd`. -/
def Getwd (w : World) : Except GoError String :=
  match w.cwd with
  | some d => .ok d
  | none => .error ⟨"getwd: no such file or directory"⟩

end os

/-- The function `filepath.Abs` (Unix): an absolute path is cleaned, a relative
one is joined to the working directory. -/
def filepath.Abs (w : os.World) (path : String) : Except GoError String :=
  if filepath.IsAbs path then .ok (filepath.Clean path)
  else
    match os.Getwd w with
    | .error err => .error err
    | .ok wd => .ok (filepath.Join [wd, path])

namespace os

/-- The key a name resolves to: the elements of its absolute form.  The empty
name resolves to nothing, and neither does a relative name when there is no
working directory.

The name is read lexically, the way `filepath.Clean` reads it.  This is what
the system does with a name as long as every directory the name goes through
on its way to a `..` exists, and as long as the name does not put a separator
after a regular file; for the other names (`ghost/..` with no `ghost`,
`notes.txt/`) the system reports an error where this definition goes on.  The
properties that depend on the difference are stated for names without a `..`
element. -/
def resolve (w : World) (name : String) : Option (List String) :=
  if name = "" then none
  else
    match filepath.Abs w name with
    | .ok a => some ((filepath.elems a.data).map String.mk)
    | .error _ => none

/-- Why there is no entry at a key: a regular file stands where a directory
is needed, or an element is missing. -/
def whyAbsent : Node → List String → String
  | Node.file _ _, _ :: _ => "not a directory"
  | Node.dir _ cs, c :: rest =>
      match child cs c with
      | some m => whyAbsent m rest
      | none => "no such file or directory"
  | _, [] => "no such file or directory"

/-- The function `os.Stat`. -/
def Stat (w : World) (name : String) : Except GoError FileInfo :=
  match resolve w name with
  | none => .error ⟨"stat " ++ name ++ ": no such file or directory"⟩
  | some k =>
      match find w.root k with
      | some n => .ok (info n)
      | none => .error ⟨"stat " ++ name ++ ": " ++ whyAbsent w.root k⟩

/-- The system call behind `os.Mkdir`, on a key: the entry must not exist, its
parent must be a directory, and there must be room for a new entry.  The new
directory gets the permission bits of `perm` that the umask leaves. -/
def mkdirKey (w : World) (k : List String) (perm : Nat) : World × Option GoError :=
  match find w.root k with
  | some _ => (w, some ⟨"mkdir " ++ keyName k ++ ": file exists"⟩)
  | none =>
      match put (some w.root) k (Node.dir (applyUmask w.umask perm) []) with
      | none => (w, some ⟨"mkdir " ++ keyName k ++ ": no such file or directory"⟩)
      | some r =>
          if w.free = 0 then (w, some ⟨"mkdir " ++ keyName k ++ ": no space left on device"⟩)
          else ({ w with root := r, free := w.free - 1 }, none)

/-- The body of `os.MkdirAll` on a key given last element first: nothing to do
when the entry is a directory, an error when it is a file; otherwise the
parent is made first, then the directory itself, and when that fails the entry
is looked at once more. -/
def mkdirAllKey (perm : Nat) : World → List String → World × Option GoError
  | w, rk =>
      match find w.root rk.reverse with
      | some (Node.dir _ _) => (w, none)
      | some (Node.file _ _) => (w, some ⟨"mkdir " ++ keyName rk.reverse ++ ": not a directory"⟩)
      | none =>
          match rk with
          | [] => (w, some ⟨"mkdir /: no such file or directory"⟩)
          | _ :: parent =>
              match mkdirAllKey perm w parent with
              | (w1, some err) => (w1, some err)
              | (w1, none) =>
                  match mkdirKey w1 rk.reverse perm with
                  | (w2, none) => (w2, none)
                  | (w2, some err) =>
                      match find w2.root rk.reverse with
                      | some (Node.dir _ _) => (w2, none)
                      | _ => (w2, some err)

/-- The function `os.MkdirAll`.  The messages of its errors name the entry by
its absolute path, where the library names it by the path it was given. -/
def MkdirAll (w : World) (path : String) (perm : Nat) : World × Option GoError :=
  match resolve w path with
  | none => (w, some ⟨"mkdir " ++ path ++ ": no such file or directory"⟩)
  | some k => mkdirAllKey perm w k.reverse

/-- The function `ioutil.WriteFile`: an existing file is truncated and
rewritten and keeps its mode, a missing one is created with the permission
bits of `perm` that the umask leaves. -/
def WriteFile (w : World) (filename : String) (data : String) (perm : Nat) :
    World × Option GoError :=
  match resolve w filename with
  | none => (w, some ⟨"open " ++ filename ++ ": no such file or directory"⟩)
  | some k =>
      match find w.root k with
      | some (Node.dir _ _) => (w, some ⟨"open " ++ filename ++ ": is a directory"⟩)
      | some (Node.file m _) =>
          match put (some w.root) k (Node.file m data) with
          | some r => ({ w with root := r }, none)
          | none => (w, some ⟨"open " ++ filename ++ ": no such file or directory"⟩)
      | none =>
          match put (some w.root) k (Node.file (applyUmask w.umask perm) data) with
          | none => (w, some ⟨"open " ++ filename ++ ": no such file or directory"⟩)
          | some r =>
              if w.free = 0 then
                (w, some ⟨"open " ++ filename ++ ": no space left on device"⟩)
              else ({ w with root := r, free := w.free - 1 }, none)

/-- Whether a name is `.` or ends in an element `.`; `os.RemoveAll` refuses
such a name. -/
def endsWithDot (path : String) : Bool :=
  match path.data.reverse with
  | ['.'] => true
  | '.' :: '/' :: _ => true
  | _ => false

/-- The function `os.RemoveAll`: removes the entry and everything beneath it.
No error when the name is empty or the entry does not exist.  The removal as
a whole is refused when the entry is the root or holds a busy entry. -/
def RemoveAll (w : World) (path : String) : World × Option GoError :=
  if path = "" then (w, none)
  else if endsWithDot path then (w, some ⟨"RemoveAll " ++ path ++ ": invalid argument"⟩)
  else
    match resolve w path with
    | none => (w, none)
    | some k =>
        match find w.root k with
        | none => (w, none)
        | some _ =>
            if k = [] ∨ w.busy.any (under k) = true then
              (w, some ⟨"unlinkat " ++ path ++ ": device or resource busy"⟩)
            else ({ w with root := del w.root k }, none)

end os

/-! ## `fmt` -/

namespace fmt

/-- The call `fmt.Println(s)`: the string and a newline, on standard output. -/
def Println (w : os.World) (s : String) : os.World :=
  { w with stdout := w.stdout ++ s ++ "\n" }

/-- The verb `%s` applied to an `error`: the message of the error, and the
text fmt prints for a nil interface value. -/
def verbS : Option GoError → String
  | some e => e.msg
  | none => "%!s(<nil>)"

/-- The call `fmt.Fprintf(os.Stderr, "error: %s\n", err)`. -/
def FprintfStderr (w : os.World) (err : Option GoError) : os.World :=
  { w with stderr := w.stderr ++ "error: " ++ verbS err ++ "\n" }

end fmt

/-! ## The program -/

/-- The function `isHelpRequired` (goenv.go, lines 71-73), of `os.Args`. -/
def isHelpRequired (args : List String) : Bool :=
  args.length == 2 && args.getD 1 "" == "--help" || args.length != 3

/-- The function `initEnv` (goenv.go, lines 75-130). -/
def initEnv (w : os.World) (envpath : String) (importpath : String) :
    os.World × Option GoError :=
  match os.Stat w envpath with
  | .ok _ => (w, some (errorsNew pathExists))
  | .error _ =>
    let dirMode := os.ModeDir ||| 0o755
    match os.MkdirAll w envpath dirMode with
    | (w1, some err) => (w1, some err)
    | (w1, none) =>
      let binDir := filepath.Join [envpath, "bin"]
      match os.MkdirAll w1 binDir dirMode with
      | (w2, some err) => (w2, some err)
      | (w2, none) =>
        match template.Parse script with
        | .error err => (w2, some err)
        | .ok scriptTemplate =>
          match os.Getwd w2 with
          | .error err => (w2, some err)
          | .ok pwd =>
            match filepath.Abs w2 envpath with
            | .error err => (w2, some err)
            | .ok goPath =>
              match template.Execute scriptTemplate
                  ⟨filepath.Base pwd, pwd, goPath, importpath⟩ with
              | .error err => (w2, some err)
              | .ok scriptContent =>
                let scriptPath := filepath.Join [binDir, "activate"]
                match os.WriteFile w2 scriptPath scriptContent 0o744 with
                | (w3, some err) => (w3, some err)
                | (w3, none) => (w3, none)

/-- The function `main` (goenv.go, lines 132-145), as a function of the state
and of `os.Args`; the result is the final state and the exit status.  The
statement `_, err = os.Stat(os.Args[1])` assigns to the variable `err` of the
enclosing block, so the value printed afterwards is the one `Stat` returned. -/
def main (w : os.World) (args : List String) : os.World × Nat :=
  if isHelpRequired args then
    (fmt.Println w usage, 1)
  else
    match initEnv w (args.getD 1 "") (args.getD 2 "") with
    | (w1, none) => (w1, 0)
    | (w1, some _) =>
        match os.Stat w1 (args.getD 1 "") with
        | .ok _ =>
            let w2 := (os.RemoveAll w1 (args.getD 1 "")).1
            (fmt.FprintfStderr w2 none, 1)
        | .error err => (fmt.FprintfStderr w1 (some err), 1)


/-! ## The activation script as a shell program

The text of `script` read as the program the shell runs when the generated
file is sourced, as far as the variables of the shell and the function
`deactivate` go.  The template inserts its four values without quotes, so
what the shell makes of them depends on their characters; the definitions
below describe the script for values that are plain words (`plainParams`), and
the properties proved of them carry that as a hypothesis.  The three commands
`mkdir`, `rm` and `ln` act on the file system only and leave the variables
alone. -/

namespace shell

/-- The variables of the shell (`none`: not set), whether the function
`deactivate` is defined, and what the command substitution `$(basename x)`
yields: `basename path x` is its output when the shell looks the command up
along the search path `path` (the empty string when no such command is
found). -/
structure Env where
  vars : String → Option String
  deactivateDefined : Bool
  basename : String → String → String

/-- Whether a string is a plain word: ASCII letters, digits and the characters
`/`, `.`, `_` and `-` only.  The shell reads such a word as it is, with no
splitting, no expansion and no operator in it. -/
def plainWord (s : String) : Bool :=
  s.data.all (fun c => c.isAlphanum || c = '/' || c = '.' || c = '_' || c = '-')

/-- Whether the four values the template inserts are plain words. -/
def plainParams (p : params) : Bool :=
  plainWord p.ProjectName && plainWord p.ProjectPath && plainWord p.GoPath &&
    plainWord p.ImportPath

/-- The value of a variable, `none` when it is not set. -/
def Env.get (e : Env) (x : String) : Option String := e.vars x

/-- The expansion `$x`: the value of the variable, empty when it is not set. -/
def Env.expand (e : Env) (x : String) : String :=
  match e.vars x with
  | some v => v
  | none => ""

/-- The command `export x=v`. -/
def Env.export (e : Env) (x : String) (v : String) : Env :=
  { e with vars := fun y => if y = x then some v else e.vars y }

/-- The command `unset x`. -/
def Env.unset (e : Env) (x : String) : Env :=
  { e with vars := fun y => if y = x then none else e.vars y }

/-- The body of the function `deactivate` (goenv.go, lines 52-57). -/
def deactivate (e : Env) : Env :=
  let e1 := e.export "PS1" (e.expand "GOENV_OLDPS1")
  let e2 := e1.export "GOPATH" (e1.expand "GOENV_OLDGOPATH")
  let e3 := e2.export "PATH" (e2.expand "GOENV_OLDPATH")
  let e4 := (((e3.unset "GOENV").unset "GOENV_OLDPS1").unset "GOENV_OLDPATH").unset
    "GOENV_OLDGOPATH"
  { e4 with deactivateDefined := false }

/-- Sourcing the script rendered with `p` (goenv.go, lines 34-58), for values
that are plain words.  The test of the first line holds when `GOENV` is set,
to any value; calling `deactivate` when no such function is defined is an
error the shell reports and goes on from.  The right-hand side of an `export`
is not split into words. -/
def activate (p : params) (e : Env) : Env :=
  let e0 := if (e.get "GOENV").isSome && e.deactivateDefined then deactivate e else e
  let e1 := e0.export "GOENV" p.ProjectName
  let e2 := e1.export "GOENV_OLDPS1" (e1.expand "PS1")
  let e3 := e2.export "GOENV_OLDGOPATH" (e2.expand "GOPATH")
  let e4 := e3.export "GOENV_OLDPATH" (e3.expand "PATH")
  let e5 := e4.export "GOPATH" p.GoPath
  let e6 := e5.export "PATH" (e5.expand "GOPATH" ++ "/bin:" ++ e5.expand "PATH")
  let e7 := e6.export "PS1"
    ("(" ++ e6.basename (e6.expand "PATH") (e6.expand "GOPATH") ++ ")" ++ e6.expand "PS1")
  { e7 with deactivateDefined := true }

/-- A shell in which nothing is set; with no search path the command
`basename` is not found. -/
def emptyEnv : Env := ⟨fun _ => none, false, fun _ _ => ""⟩

/-- A shell with a prompt and a search path, and no `GOPATH`; the command
`basename` is found and prints the last element of its argument. -/
def loginEnv : Env :=
  ⟨fun x => if x = "PS1" then some "$ " else if x = "PATH" then some "/usr/bin:/bin" else none,
    false, fun _ x => filepath.Base x⟩

end shell

/-! ## Notions used to state the properties -/

/-- Rendering the template of the script, as `initEnv` does it: the constant
`script` parsed, then executed on the parameters. -/
def render (p : params) : Except GoError String :=
  match template.Parse script with
  | .error err => .error err
  | .ok scriptTemplate => template.Execute scriptTemplate p

/-- The text of the script with four given strings in the places of the four
actions of the template: the first once, the second once, the third once and
the fourth three times. -/
def fill (projectName projectPath goPath importPath : String) : String :=
  "\n" ++
  "# This file must be used with \"source activate\" or \". activate\"\n" ++
  "\n" ++
  "if [[ -n \"$\x7bGOENV+1\x7d\" ]]; then\n" ++
  "\tdeactivate\n" ++
  "fi\n" ++
  "\n" ++
  "export GOENV=" ++ projectName ++ "\n" ++
  "export GOENV_OLDPS1=$PS1\n" ++
  "export GOENV_OLDGOPATH=$GOPATH\n" ++
  "export GOENV_OLDPATH=$PATH\n" ++
  "\n" ++
  "export GOPATH=" ++ goPath ++ "\n" ++
  "export PATH=\"$GOPATH/bin:$PATH\"\n" ++
  "export PS1=\"($(basename $GOPATH))$PS1\"\n" ++
  "\n" ++
  "mkdir -p $(dirname $GOPATH/src/" ++ importPath ++ ")\n" ++
  "rm -f $GOPATH/src/" ++ importPath ++ "\n" ++
  "ln -s " ++ projectPath ++ " $GOPATH/src/" ++ importPath ++ "\n" ++
  "\n" ++
  "deactivate() \x7b\n" ++
  "\texport PS1=$GOENV_OLDPS1\n" ++
  "\texport GOPATH=$GOENV_OLDGOPATH\n" ++
  "\texport PATH=$GOENV_OLDPATH\n" ++
  "\n" ++
  "\tunset GOENV GOENV_OLDPS1 GOENV_OLDPATH GOENV_OLDGOPATH\n" ++
  "\tunset -f deactivate\n" ++
  "\x7d\n"

/-- Whether `text` begins with `pat`. -/
def startsWith : List Char → List Char → Bool
  | [], _ => true
  | _ :: _, [] => false
  | a :: pat, b :: text => a = b && startsWith pat text

/-- Whether `pat` occurs in `text`. -/
def occursIn (pat : List Char) : List Char → Bool
  | [] => startsWith pat []
  | c :: text => startsWith pat (c :: text) || occursIn pat text

/-- Whether a text contains a given line: the line between two newlines. -/
def containsLine (text line : String) : Bool :=
  occursIn ("\n" ++ line ++ "\n").data text.data

/-- The content of the regular file a name resolves to. -/
def contentOf (w : os.World) (name : String) : Option String :=
  match os.resolve w name with
  | none => none
  | some k =>
      match os.find w.root k with
      | some (os.Node.file _ content) => some content
      | _ => none

/-- The absolute form of a path the way the specification words it: the path
itself when it is absolute and clean, the working directory joined with it
otherwise. -/
def absAsWorded (cwd envpath : String) : String :=
  if filepath.IsAbs envpath = true ∧ filepath.Clean envpath = envpath then envpath
  else filepath.Join [cwd, envpath]

/-- The absolute form of a path the way `filepath.Abs` computes it: the cleaned
path when it is absolute, the working directory joined with it otherwise. -/
def absAsComputed (cwd envpath : String) : String :=
  if filepath.IsAbs envpath = true then filepath.Clean envpath
  else filepath.Join [cwd, envpath]

/-! ## Sample states -/

/-- A file system with `/tmp` and the project directory `/home/u/proj`, which
is the working directory; the umask is the usual `022`. -/
def sampleWorld : os.World :=
  { root := os.Node.dir 0o755
      [("tmp", os.Node.dir 0o777 []),
       ("home", os.Node.dir 0o755 [("u", os.Node.dir 0o755 [("proj", os.Node.dir 0o755 [])])])]
    cwd := some "/home/u/proj"
    free := 16
    busy := []
    stdout := ""
    stderr := ""
    umask := 0o022 }

/-- The sample file system with a directory `/tmp/env` that holds a file. -/
def occupiedWorld : os.World :=
  { sampleWorld with
    root := os.Node.dir 0o755
      [("tmp", os.Node.dir 0o777
          [("env", os.Node.dir 0o700 [("notes.txt", os.Node.file 0o600 "keep me\n")])]),
       ("home", os.Node.dir 0o755 [("u", os.Node.dir 0o755 [("proj", os.Node.dir 0o755 [])])])] }

/-- The sample file system when the working directory cannot be obtained. -/
def lostWorld : os.World := { sampleWorld with cwd := none }

/-- The sample file system with no room for a new entry. -/
def fullWorld : os.World := { sampleWorld with free := 0 }

/-- The sample parameters of the round trip of the specification. -/
def sampleParams : params :=
  ⟨"proj", "/home/u/proj", "/tmp/env", "github.com/u/proj"⟩

/-- The sample file system with room for one new entry only. -/
def tightWorld : os.World := { sampleWorld with free := 1 }

/-- The file system `tightWorld` after the directory `/tmp/env` has been made
in it. -/
def madeWorld : os.World :=
  { tightWorld with
    root := os.Node.dir 0o755
      [("tmp", os.Node.dir 0o777 [("env", os.Node.dir 0o755 [])]),
       ("home", os.Node.dir 0o755 [("u", os.Node.dir 0o755 [("proj", os.Node.dir 0o755 [])])])]
    free := 0 }

/-- The sample file system after a successful `goenv /tmp/env github.com/u/proj`. -/
def builtWorld : os.World :=
  { sampleWorld with
    root := os.Node.dir 0o755
      [("tmp", os.Node.dir 0o777
          [("env", os.Node.dir 0o755
              [("bin", os.Node.dir 0o755
                  [("activate", os.Node.file 0o744
                      (fill "proj" "/home/u/proj" "/tmp/env" "github.com/u/proj"))])])]),
       ("home", os.Node.dir 0o755 [("u", os.Node.dir 0o755 [("proj", os.Node.dir 0o755 [])])])]
    free := 13 }

/-- The sample file system under the umask `077`. -/
def privateWorld : os.World := { sampleWorld with umask := 0o077 }

/-- The file system `privateWorld` after a successful
`goenv /tmp/env github.com/u/proj`. -/
def privateBuiltWorld : os.World :=
  { privateWorld with
    root := os.Node.dir 0o755
      [("tmp", os.Node.dir 0o777
          [("env", os.Node.dir 0o700
              [("bin", os.Node.dir 0o700
                  [("activate", os.Node.file 0o700
                      (fill "proj" "/home/u/proj" "/tmp/env" "github.com/u/proj"))])])]),
       ("home", os.Node.dir 0o755 [("u", os.Node.dir 0o755 [("proj", os.Node.dir 0o755 [])])])]
    free := 13 }

/-! # Theorems -/

open os template

/-! ## The template of the script -/

set_option maxRecDepth 1000000 in
theorem script_eq_fill :
    script = fill "\x7b\x7b.ProjectName\x7d\x7d" "\x7b\x7b.ProjectPath\x7d\x7d"
      "\x7b\x7b.GoPath\x7d\x7d" "\x7b\x7b.ImportPath\x7d\x7d" := by decide

set_option maxRecDepth 1000000 in
theorem parse_script :
    Parse script = .ok
      [TNode.text ("\n" ++
          "# This file must be used with \"source activate\" or \". activate\"\n" ++
          "\n" ++
          "if [[ -n \"$\x7bGOENV+1\x7d\" ]]; then\n" ++
          "\tdeactivate\n" ++
          "fi\n" ++
          "\n" ++
          "export GOENV="),
       TNode.field "ProjectName",
       TNode.text ("\n" ++
          "export GOENV_OLDPS1=$PS1\n" ++
          "export GOENV_OLDGOPATH=$GOPATH\n" ++
          "export GOENV_OLDPATH=$PATH\n" ++
          "\n" ++
          "export GOPATH="),
       TNode.field "GoPath",
       TNode.text ("\n" ++
          "export PATH=\"$GOPATH/bin:$PATH\"\n" ++
          "export PS1=\"($(basename $GOPATH))$PS1\"\n" ++
          "\n" ++
          "mkdir -p $(dirname $GOPATH/src/"),
       TNode.field "ImportPath",
       TNode.text (")\n" ++
          "rm -f $GOPATH/src/"),
       TNode.field "ImportPath",
       TNode.text ("\n" ++
          "ln -s "),
       TNode.field "ProjectPath",
       TNode.text (" $GOPATH/src/"),
       TNode.field "ImportPath",
       TNode.text ("\n" ++
          "\n" ++
          "deactivate() \x7b\n" ++
          "\texport PS1=$GOENV_OLDPS1\n" ++
          "\texport GOPATH=$GOENV_OLDGOPATH\n" ++
          "\texport PATH=$GOENV_OLDPATH\n" ++
          "\n" ++
          "\tunset GOENV GOENV_OLDPS1 GOENV_OLDPATH GOENV_OLDGOPATH\n" ++
          "\tunset -f deactivate\n" ++
          "\x7d\n")] := by
  rfl

theorem fieldOf_ProjectName (p : params) : fieldOf p "ProjectName" = some p.ProjectName := by
  simp [fieldOf]

theorem fieldOf_ProjectPath (p : params) : fieldOf p "ProjectPath" = some p.ProjectPath := by
  simp [fieldOf]

theorem fieldOf_GoPath (p : params) : fieldOf p "GoPath" = some p.GoPath := by
  simp [fieldOf]

theorem fieldOf_ImportPath (p : params) : fieldOf p "ImportPath" = some p.ImportPath := by
  simp [fieldOf]

theorem render_eq_fill (p : params) :
    render p = .ok (fill p.ProjectName p.ProjectPath p.GoPath p.ImportPath) := by
  unfold render
  rw [parse_script]
  simp only [Execute, fieldOf_ProjectName, fieldOf_ProjectPath, fieldOf_GoPath,
    fieldOf_ImportPath, fill, String.append_assoc, String.append_empty]

/-! ## Paths: elements and cleaning -/

namespace filepath

theorem splitSlash_ne_nil (s : List Char) : splitSlash s ≠ [] := by
  cases s with
  | nil => simp [splitSlash]
  | cons c cs =>
    unfold splitSlash
    split
    · simp
    · split <;> simp

theorem splitSlash_append (a b : List Char) :
    splitSlash (a ++ '/' :: b) = splitSlash a ++ splitSlash b := by
  induction a with
  | nil => simp [splitSlash]
  | cons c cs ih =>
    by_cases hc : c = '/'
    · simp [splitSlash, hc, ih]
    · simp only [List.cons_append, splitSlash, hc, if_false]
      cases h : splitSlash cs with
      | nil => exact absurd h (splitSlash_ne_nil cs)
      | cons x xs =>
        simp only [List.append_eq] at ih ⊢
        rw [ih, h]; rfl

theorem splitSlash_plain (n : List Char) (h : '/' ∉ n) : splitSlash n = [n] := by
  induction n with
  | nil => simp [splitSlash]
  | cons c cs ih =>
    have hc : c ≠ '/' := fun e => h (by simp [e])
    have hcs : '/' ∉ cs := fun e => h (by simp [e])
    simp [splitSlash, hc, ih hcs]

theorem splitSlash_noSlash (s : List Char) : ∀ e ∈ splitSlash s, '/' ∉ e := by
  induction s with
  | nil => simp [splitSlash]
  | cons c cs ih =>
    by_cases hc : c = '/'
    · simp only [splitSlash, hc, if_true]
      intro e he
      rcases List.mem_cons.1 he with rfl | he
      · simp
      · exact ih e he
    · simp only [splitSlash, hc, if_false]
      cases h : splitSlash cs with
      | nil => exact absurd h (splitSlash_ne_nil cs)
      | cons x xs =>
        rw [h] at ih
        intro e he
        rcases List.mem_cons.1 he with rfl | he
        · have := ih x (by simp)
          simp only [List.mem_cons, not_or]
          exact ⟨fun e => hc e.symm, this⟩
        · exact ih e (by simp [he])

theorem elems_append (a b : List Char) :
    elems (a ++ '/' :: b) = elems a ++ elems b := by
  simp [elems, splitSlash_append]

theorem elems_nil : elems [] = [] := by
  simp [elems, splitSlash]

theorem elems_slash (s : List Char) : elems ('/' :: s) = elems s := by
  have := elems_append [] s
  simpa [elems_nil] using this

theorem elems_plain (n : List Char) (h0 : n ≠ []) (h1 : n ≠ ['.']) (h2 : '/' ∉ n) :
    elems n = [n] := by
  simp [elems, splitSlash_plain n h2, h0, h1]

theorem elems_good (s : List Char) :
    ∀ e ∈ elems s, e ≠ [] ∧ e ≠ ['.'] ∧ '/' ∉ e := by
  intro e he
  simp only [elems, List.mem_filter, decide_eq_true_eq] at he
  exact ⟨he.2.1, he.2.2, splitSlash_noSlash s e he.1⟩

theorem elems_joinElems (xs : List (List Char))
    (h : ∀ e ∈ xs, e ≠ [] ∧ e ≠ ['.'] ∧ '/' ∉ e) : elems (joinElems xs) = xs := by
  induction xs with
  | nil => simp [joinElems, elems_nil]
  | cons e es ih =>
    have he := h e (by simp)
    cases es with
    | nil => simpa [joinElems] using elems_plain e he.1 he.2.1 he.2.2
    | cons f fs =>
      have := ih (fun x hx => h x (by simp [hx]))
      simp only [joinElems, elems_append, this, elems_plain e he.1 he.2.1 he.2.2]
      simp

theorem joinElems_head (xs : List (List Char))
    (h : ∀ e ∈ xs, e ≠ [] ∧ e ≠ ['.'] ∧ '/' ∉ e) (c : Char) (t : List Char)
    (hj : joinElems xs = c :: t) : c ≠ '/' := by
  cases xs with
  | nil => simp [joinElems] at hj
  | cons e es =>
    have he := h e (by simp)
    cases e with
    | nil => exact absurd rfl he.1
    | cons d ds =>
      have hd : d ≠ '/' := fun e => he.2.2 (by simp [e])
      cases es with
      | nil =>
        simp only [joinElems, List.cons.injEq] at hj
        exact hj.1 ▸ hd
      | cons f fs =>
        simp only [joinElems, List.cons_append, List.cons.injEq] at hj
        exact hj.1 ▸ hd

theorem step_mem (r : Bool) (S : List (List Char)) (e x : List Char)
    (hx : x ∈ step r S e) : x ∈ S ∨ x = e := by
  unfold step at hx
  split at hx
  · split at hx
    · split at hx
      · simp at hx
      · simp only [List.mem_singleton] at hx; exact Or.inr hx
    · split at hx
      · rcases List.mem_cons.1 hx with h | h
        · exact Or.inr h
        · exact Or.inl h
      · exact Or.inl (List.mem_cons_of_mem _ hx)
  · rcases List.mem_cons.1 hx with h | h
    · exact Or.inr h
    · exact Or.inl h

theorem foldl_step_mem (r : Bool) (es : List (List Char)) :
    ∀ (S : List (List Char)) (x : List Char),
      x ∈ es.foldl (step r) S → x ∈ S ∨ x ∈ es := by
  induction es with
  | nil => intro S x hx; exact Or.inl hx
  | cons e es ih =>
    intro S x hx
    rcases ih (step r S e) x hx with h | h
    · rcases step_mem r S e x h with h | h
      · exact Or.inl h
      · exact Or.inr (by simp [h])
    · exact Or.inr (by simp [h])

theorem cleanElems_mem (r : Bool) (es : List (List Char)) (x : List Char)
    (hx : x ∈ cleanElems r es) : x ∈ es := by
  unfold cleanElems at hx
  rcases foldl_step_mem r es [] x (List.mem_reverse.1 hx) with h | h
  · simp at h
  · exact h

theorem cleanElems_elems_good (r : Bool) (s : List Char) :
    ∀ e ∈ cleanElems r (elems s), e ≠ [] ∧ e ≠ ['.'] ∧ '/' ∉ e :=
  fun e he => elems_good s e (cleanElems_mem r _ e he)

theorem cleanElems_snoc (r : Bool) (xs : List (List Char)) (n : List Char)
    (hn : n ≠ ['.', '.']) : cleanElems r (xs ++ [n]) = cleanElems r xs ++ [n] := by
  simp [cleanElems, List.foldl_append, step, hn]

theorem step_plain (r : Bool) (S : List (List Char)) (e : List Char)
    (he : e ≠ ['.', '.']) : step r S e = e :: S := by
  simp [step, he]

theorem step_up_up (r : Bool) (ts : List (List Char)) :
    step r (['.', '.'] :: ts) ['.', '.'] = ['.', '.'] :: ['.', '.'] :: ts := by
  simp [step]

theorem step_up (r : Bool) (t : List Char) (ts : List (List Char))
    (ht : t ≠ ['.', '.']) : step r (t :: ts) ['.', '.'] = ts := by
  simp [step, ht]

/-- Cleaning a relative path first does not change what a longer path cleans
to. -/
theorem foldl_step_cleanElems (r : Bool) (ys : List (List Char)) :
    ∀ S : List (List Char),
      (cleanElems false ys).foldl (step r) S = ys.foldl (step r) S := by
  induction ys using List.reverseRecOn with
  | nil => intro S; simp [cleanElems]
  | append_singleton ys e ih =>
    intro S
    have ih1 := ih S
    simp only [cleanElems] at ih1
    simp only [cleanElems, List.foldl_append, List.foldl_cons, List.foldl_nil]
    rw [← ih1]
    generalize List.foldl (step false) [] ys = T
    by_cases he : e = ['.', '.']
    · subst he
      cases T with
      | nil => simp [step]
      | cons t ts =>
        by_cases ht : t = ['.', '.']
        · subst ht
          rw [step_up_up]
          simp [List.foldl_append]
        · rw [step_up false t ts ht]
          simp only [List.reverse_cons, List.foldl_append, List.foldl_cons, List.foldl_nil]
          rw [step_plain r _ t ht, step_up r t _ ht]
    · rw [step_plain false T e he]
      simp [List.foldl_append]

theorem cleanElems_idem (ys : List (List Char)) :
    (cleanElems true ys).foldl (step true) [] = ys.foldl (step true) [] := by
  induction ys using List.reverseRecOn with
  | nil => simp [cleanElems]
  | append_singleton ys e ih =>
    simp only [cleanElems] at ih
    simp only [cleanElems, List.foldl_append, List.foldl_cons, List.foldl_nil]
    generalize List.foldl (step true) [] ys = T at ih
    by_cases he : e = ['.', '.']
    · subst he
      cases T with
      | nil => simp [step]
      | cons t ts =>
        by_cases ht : t = ['.', '.']
        · subst ht
          rw [step_up_up]
          rw [List.reverse_cons, List.foldl_append, ih]
          simp [step]
        · rw [step_up true t ts ht]
          simp only [List.reverse_cons, List.foldl_append, List.foldl_cons,
            List.foldl_nil] at ih
          rw [step_plain true _ t ht] at ih
          exact (List.cons.inj ih).2
    · rw [step_plain true T e he, List.reverse_cons, List.foldl_append, ih]
      simp [step, he]

end filepath

/-! ## Paths: `Clean`, `Join` and the key of a joined path -/

namespace filepath

theorem data_ne_nil (s : String) (h : s ≠ "") : s.data ≠ [] := by
  intro e
  apply h
  cases s
  simp_all

theorem IsAbs_mk_slash (t : List Char) : IsAbs (String.mk ('/' :: t)) = true := by
  simp [IsAbs]

theorem IsAbs_append (s t : String) (h : s ≠ "") : IsAbs (s ++ t) = IsAbs s := by
  have := data_ne_nil s h
  cases hd : s.data with
  | nil => exact absurd hd this
  | cons c cs => simp [IsAbs, String.data_append, hd]

theorem Clean_abs (s : String) (ha : IsAbs s = true) :
    Clean s = String.mk ('/' :: joinElems (cleanElems true (elems s.data))) := by
  simp only [Clean, ha, if_true]

theorem Clean_rel_dot (s : String) (ha : IsAbs s = false)
    (ho : joinElems (cleanElems false (elems s.data)) = []) : Clean s = "." := by
  simp only [Clean, ha, ho, if_true, Bool.false_eq_true, if_false]

theorem Clean_rel (s : String) (ha : IsAbs s = false)
    (ho : joinElems (cleanElems false (elems s.data)) ≠ []) :
    Clean s = String.mk (joinElems (cleanElems false (elems s.data))) := by
  simp only [Clean, ha, ho, Bool.false_eq_true, if_false]

theorem elems_Clean (s : String) :
    elems (Clean s).data = cleanElems (IsAbs s) (elems s.data) := by
  cases ha : IsAbs s with
  | true =>
    have hj := elems_joinElems _ (cleanElems_elems_good true s.data)
    rw [Clean_abs s ha, elems_slash, hj]
  | false =>
    have hj := elems_joinElems _ (cleanElems_elems_good false s.data)
    by_cases ho : joinElems (cleanElems false (elems s.data)) = []
    · rw [Clean_rel_dot s ha ho]
      rw [ho, elems_nil] at hj
      rw [← hj]
      simp [elems, splitSlash]
    · rw [Clean_rel s ha ho]
      exact hj

theorem IsAbs_Clean (s : String) : IsAbs (Clean s) = IsAbs s := by
  cases ha : IsAbs s with
  | true => rw [Clean_abs s ha]; exact IsAbs_mk_slash _
  | false =>
    by_cases ho : joinElems (cleanElems false (elems s.data)) = []
    · rw [Clean_rel_dot s ha ho]; simp [IsAbs]
    · rw [Clean_rel s ha ho]
      cases hd : joinElems (cleanElems false (elems s.data)) with
      | nil => exact absurd hd ho
      | cons c t =>
        have := joinElems_head _ (cleanElems_elems_good false s.data) c t hd
        simp [IsAbs, this]

theorem Clean_ne_empty (s : String) : Clean s ≠ "" := by
  intro e
  have e := congrArg String.data e
  cases ha : IsAbs s with
  | true => rw [Clean_abs s ha] at e; simp at e
  | false =>
    by_cases ho : joinElems (cleanElems false (elems s.data)) = []
    · rw [Clean_rel_dot s ha ho] at e; simp at e
    · rw [Clean_rel s ha ho] at e; exact ho e

theorem Join_pair (s n : String) (hs : s ≠ "") : Join [s, n] = Clean (s ++ "/" ++ n) := by
  simp [Join, hs, sepJoin]

theorem Join_empty_left (n : String) (hn : n ≠ "") : Join ["", n] = Clean n := by
  simp [Join, hn, sepJoin]

theorem elems_pair (s n : String) (h0 : n.data ≠ []) (h1 : n.data ≠ ['.'])
    (h2 : '/' ∉ n.data) :
    elems (s ++ "/" ++ n).data = elems s.data ++ [n.data] := by
  have : (s ++ "/" ++ n).data = s.data ++ '/' :: n.data := by
    simp [String.data_append]
  rw [this, elems_append, elems_plain n.data h0 h1 h2]

theorem elems_pair_any (s n : String) :
    elems (s ++ "/" ++ n).data = elems s.data ++ elems n.data := by
  have : (s ++ "/" ++ n).data = s.data ++ '/' :: n.data := by
    simp [String.data_append]
  rw [this, elems_append]

/-- The elements of an absolute path joined with a plain name. -/
theorem elems_Clean_Join_abs (s n : String) (hs : s ≠ "") (ha : IsAbs s = true)
    (h0 : n.data ≠ []) (h1 : n.data ≠ ['.']) (h2 : '/' ∉ n.data)
    (h3 : n.data ≠ ['.', '.']) :
    elems (Clean (Join [s, n])).data = elems (Clean s).data ++ [n.data] := by
  rw [Join_pair s n hs, elems_Clean, elems_Clean, elems_Clean, IsAbs_Clean]
  have hA : IsAbs (s ++ "/" ++ n) = true := by
    rw [String.append_assoc, IsAbs_append s _ hs, ha]
  rw [hA, ha, elems_pair s n h0 h1 h2]
  have := cleanElems_idem (elems s.data ++ [n.data])
  unfold cleanElems at this ⊢
  rw [this, List.foldl_append]
  simp [step, h3]

/-- The elements of a relative path joined with a plain name, then joined to
a working directory. -/
theorem elems_Join_Join_rel (wd s n : String) (hs : s ≠ "") (ha : IsAbs s = false)
    (h0 : n.data ≠ []) (h1 : n.data ≠ ['.']) (h2 : '/' ∉ n.data)
    (h3 : n.data ≠ ['.', '.']) :
    elems (Join [wd, Join [s, n]]).data = elems (Join [wd, s]).data ++ [n.data] := by
  rw [Join_pair s n hs]
  have hA : IsAbs (s ++ "/" ++ n) = false := by
    rw [String.append_assoc, IsAbs_append s _ hs, ha]
  by_cases hw : wd = ""
  · subst hw
    rw [Join_empty_left _ (Clean_ne_empty _), Join_empty_left _ hs, elems_Clean, elems_Clean,
      elems_Clean, IsAbs_Clean, hA, ha, elems_pair s n h0 h1 h2]
    have := foldl_step_cleanElems false (elems s.data ++ [n.data]) []
    unfold cleanElems at this ⊢
    rw [this, List.foldl_append]
    simp [step, h3]
  · rw [Join_pair wd _ hw, Join_pair wd s hw, elems_Clean, elems_Clean, elems_pair_any,
      elems_pair_any, elems_Clean, hA, elems_pair s n h0 h1 h2]
    have e1 : IsAbs (wd ++ "/" ++ Clean (s ++ "/" ++ n)) = IsAbs wd := by
      rw [String.append_assoc, IsAbs_append wd _ hw]
    have e2 : IsAbs (wd ++ "/" ++ s) = IsAbs wd := by
      rw [String.append_assoc, IsAbs_append wd _ hw]
    rw [e1, e2]
    have := foldl_step_cleanElems (IsAbs wd) (elems s.data ++ [n.data])
      ((elems wd.data).foldl (step (IsAbs wd)) [])
    simp only [cleanElems, List.foldl_append] at this ⊢
    rw [this]
    simp [step, h3]

end filepath

namespace os

theorem resolve_ne_empty (w : World) (s : String) (k : List String)
    (h : resolve w s = some k) : s ≠ "" := by
  intro e
  simp [resolve, e] at h

/-- The key of a path joined with a plain name is the key of the path with
the name added. -/
theorem resolve_Join (w : World) (s n : String) (k : List String)
    (h : resolve w s = some k)
    (h0 : n.data ≠ []) (h1 : n.data ≠ ['.']) (h2 : '/' ∉ n.data)
    (h3 : n.data ≠ ['.', '.']) :
    resolve w (filepath.Join [s, n]) = some (k ++ [n]) := by
  have hs := resolve_ne_empty w s k h
  have hJ : filepath.Join [s, n] ≠ "" := by
    rw [filepath.Join_pair s n hs]; exact filepath.Clean_ne_empty _
  have hA : filepath.IsAbs (filepath.Join [s, n]) = filepath.IsAbs s := by
    rw [filepath.Join_pair s n hs, filepath.IsAbs_Clean, String.append_assoc,
      filepath.IsAbs_append s _ hs]
  simp only [resolve, hs, hJ, if_false, filepath.Abs, hA] at h ⊢
  cases ha : filepath.IsAbs s with
  | true =>
    simp only [ha, if_true, Option.some.injEq] at h ⊢
    rw [filepath.elems_Clean_Join_abs s n hs ha h0 h1 h2 h3, ← h]
    simp
  | false =>
    simp only [ha, Bool.false_eq_true, if_false] at h ⊢
    cases hc : Getwd w with
    | error e => simp [hc] at h
    | ok wd =>
      simp only [hc, Option.some.injEq] at h ⊢
      rw [filepath.elems_Join_Join_rel wd s n hs ha h0 h1 h2 h3, ← h]
      simp

theorem resolve_cwd (w w1 : World) (h : w1.cwd = w.cwd) (s : String) :
    resolve w1 s = resolve w s := by
  simp [resolve, filepath.Abs, Getwd, h]

end os

/-! ## The directory tree -/

namespace os

theorem child_setChild_self (cs : List (String × Node)) (c : String) (n : Node) :
    child (setChild cs c n) c = some n := by
  induction cs with
  | nil => simp [setChild, child]
  | cons x xs ih =>
    obtain ⟨d, m⟩ := x
    by_cases h : d = c
    · simp [setChild, child, h]
    · simp [setChild, child, h, ih]

theorem child_setChild_ne (cs : List (String × Node)) (c d : String) (n : Node)
    (h : d ≠ c) : child (setChild cs c n) d = child cs d := by
  induction cs with
  | nil => simp [setChild, child, Ne.symm h]
  | cons x xs ih =>
    obtain ⟨b, m⟩ := x
    by_cases hb : b = c
    · subst hb
      simp [setChild, child, Ne.symm h]
    · by_cases hd : b = d
      · subst hd
        simp [setChild, child, h]
      · simp [setChild, child, hb, hd, ih]

theorem child_dropChild_self (cs : List (String × Node)) (c : String) :
    child (dropChild cs c) c = none := by
  induction cs with
  | nil => simp [dropChild, child]
  | cons x xs ih =>
    obtain ⟨b, m⟩ := x
    by_cases hb : b = c
    · simp [dropChild, hb, ih]
    · simp [dropChild, child, hb, ih]

theorem find_nil (n : Node) : find n [] = some n := by
  cases n <;> simp [find]

theorem find_leaf (p : Nat) (q : List String) (h : q ≠ []) :
    find (Node.dir p []) q = none := by
  cases q with
  | nil => exact absurd rfl h
  | cons c rest => simp [find, child]

theorem find_append (k rest : List String) :
    ∀ n : Node, find n (k ++ rest) = (find n k).bind (fun m => find m rest) := by
  induction k with
  | nil => intro n; simp [find_nil]
  | cons c k ih =>
    intro n
    cases n with
    | file m s => simp [find]
    | dir m cs =>
      simp only [List.cons_append, find]
      cases child cs c with
      | none => simp
      | some ch => simp [ih]

theorem put_find_self (k : List String) (v : Node) :
    ∀ (o : Option Node) (r : Node), put o k v = some r → find r k = some v := by
  induction k with
  | nil =>
    intro o r h
    simp only [put, Option.some.injEq] at h
    rw [← h, find_nil]
  | cons c k ih =>
    intro o r h
    cases o with
    | none => simp [put] at h
    | some n =>
      cases n with
      | file m s => simp [put] at h
      | dir m cs =>
        simp only [put] at h
        cases hp : put (child cs c) k v with
        | none => simp [hp] at h
        | some n1 =>
          simp only [hp, Option.some.injEq] at h
          rw [← h]
          simp [find, child_setChild_self, ih _ _ hp]

/-- Setting an entry below an existing one acts inside that entry. -/
theorem put_sub (k rest : List String) (v : Node) :
    ∀ (n r sub : Node), find n k = some sub → put (some n) (k ++ rest) v = some r →
      ∃ sub1, put (some sub) rest v = some sub1 ∧ find r k = some sub1 := by
  induction k with
  | nil =>
    intro n r sub hf hp
    simp only [find_nil, Option.some.injEq] at hf
    subst hf
    exact ⟨r, by simpa using hp, find_nil r⟩
  | cons c k ih =>
    intro n r sub hf hp
    cases n with
    | file m s => simp [find] at hf
    | dir m cs =>
      simp only [find] at hf
      simp only [List.cons_append, put, List.append_eq] at hp
      cases hc : child cs c with
      | none =>
        rw [hc] at hf
        simp at hf
      | some ch =>
        rw [hc] at hf hp
        simp only at hf hp
        cases hq : put (some ch) (k ++ rest) v with
        | none => simp [hq] at hp
        | some n1 =>
          simp only [hq, Option.some.injEq] at hp
          obtain ⟨sub1, h1, h2⟩ := ih ch n1 sub hf hq
          refine ⟨sub1, h1, ?_⟩
          rw [← hp]
          simp [find, child_setChild_self, h2]

/-- A new empty directory leaves what is absent at longer keys absent. -/
theorem put_leaf_find_longer (p : Nat) (k : List String) :
    ∀ (o : Option Node) (r : Node) (q : List String),
      put o k (Node.dir p []) = some r → k.length < q.length →
      o.bind (fun n => find n q) = none → find r q = none := by
  induction k with
  | nil =>
    intro o r q h hl _
    simp only [put, Option.some.injEq] at h
    rw [← h]
    exact find_leaf p q (by intro e; simp [e] at hl)
  | cons c k ih =>
    intro o r q h hl ha
    cases o with
    | none => simp [put] at h
    | some n =>
      cases n with
      | file m s => simp [put] at h
      | dir m cs =>
        simp only [put] at h
        cases hp : put (child cs c) k (Node.dir p []) with
        | none => simp [hp] at h
        | some n1 =>
          simp only [hp, Option.some.injEq] at h
          cases q with
          | nil => simp at hl
          | cons d qs =>
            simp only [Option.bind, find] at ha
            rw [← h]
            by_cases hd : d = c
            · subst hd
              simp only [find, child_setChild_self]
              apply ih (child cs d) n1 qs hp (by simpa using hl)
              cases hc : child cs d with
              | none => rfl
              | some ch => simpa [hc] using ha
            · simp only [find, child_setChild_ne cs c d n1 hd]
              exact ha

theorem find_del_self (k : List String) (hk : k ≠ []) :
    ∀ n : Node, find (del n k) k = none := by
  induction k with
  | nil => exact absurd rfl hk
  | cons c k ih =>
    intro n
    cases n with
    | file m s => simp [del, find]
    | dir m cs =>
      cases k with
      | nil => simp [del, find, child_dropChild_self]
      | cons d rest =>
        simp only [del]
        cases hc : child cs c with
        | none => simp [find, hc]
        | some ch =>
          simp only [find, child_setChild_self]
          exact ih (by simp) ch

end os

/-! ## `MkdirAll` and `WriteFile` -/

namespace os

theorem mkdirKey_err (w w1 : World) (k : List String) (perm : Nat) (e : GoError)
    (h : mkdirKey w k perm = (w1, some e)) : w1 = w := by
  unfold mkdirKey at h
  split at h
  · exact (Prod.mk.inj h).1.symm
  · split at h
    · exact (Prod.mk.inj h).1.symm
    · split at h
      · exact (Prod.mk.inj h).1.symm
      · simp at h

theorem mkdirKey_ok (w w1 : World) (k : List String) (perm : Nat)
    (h : mkdirKey w k perm = (w1, none)) :
    find w.root k = none ∧ ∃ r, put (some w.root) k (Node.dir (applyUmask w.umask perm) []) = some r ∧
      w1 = { w with root := r, free := w.free - 1 } := by
  unfold mkdirKey at h
  split at h
  · simp at h
  · rename_i hf
    split at h
    · simp at h
    · rename_i r hp
      split at h
      · simp at h
      · exact ⟨hf, r, hp, (Prod.mk.inj h).1.symm⟩

theorem mkdirAllKey_cwd (perm : Nat) (rk : List String) :
    ∀ (w w1 : World) (e : Option GoError), mkdirAllKey perm w rk = (w1, e) → w1.cwd = w.cwd := by
  induction rk with
  | nil =>
    intro w w1 e h
    rw [mkdirAllKey] at h
    split at h <;> simp at h <;> rw [← h.1]
  | cons c parent ih =>
    intro w w1 e h
    rw [mkdirAllKey] at h
    split at h
    · simp at h; rw [← h.1]
    · simp at h; rw [← h.1]
    · split at h
      · rename_i wp ep hp
        simp at h; rw [← h.1]; exact ih _ _ _ hp
      · rename_i wp hp
        have hwp := ih _ _ _ hp
        split at h
        · rename_i w2 hm
          obtain ⟨_, r, _, hw2⟩ := mkdirKey_ok _ _ _ _ hm
          simp at h; rw [← h.1, hw2]; exact hwp
        · rename_i w2 err hm
          have := mkdirKey_err _ _ _ _ _ hm
          subst this
          split at h <;> simp at h <;> rw [← h.1] <;> exact hwp

theorem mkdirAllKey_umask (perm : Nat) (rk : List String) :
    ∀ (w w1 : World) (e : Option GoError), mkdirAllKey perm w rk = (w1, e) → w1.umask = w.umask := by
  induction rk with
  | nil =>
    intro w w1 e h
    rw [mkdirAllKey] at h
    split at h <;> simp at h <;> rw [← h.1]
  | cons c parent ih =>
    intro w w1 e h
    rw [mkdirAllKey] at h
    split at h
    · simp at h; rw [← h.1]
    · simp at h; rw [← h.1]
    · split at h
      · rename_i wp ep hp
        simp at h; rw [← h.1]; exact ih _ _ _ hp
      · rename_i wp hp
        have hwp := ih _ _ _ hp
        split at h
        · rename_i w2 hm
          obtain ⟨_, r, _, hw2⟩ := mkdirKey_ok _ _ _ _ hm
          simp at h; rw [← h.1, hw2]; exact hwp
        · rename_i w2 err hm
          have := mkdirKey_err _ _ _ _ _ hm
          subst this
          split at h <;> simp at h <;> rw [← h.1] <;> exact hwp

/-- What is absent at a key longer than the one made stays absent. -/
theorem mkdirAllKey_absent (perm : Nat) (rk : List String) :
    ∀ (w w1 : World) (e : Option GoError) (q : List String),
      mkdirAllKey perm w rk = (w1, e) → find w.root q = none → rk.length < q.length →
      find w1.root q = none := by
  induction rk with
  | nil =>
    intro w w1 e q h hq _
    rw [mkdirAllKey] at h
    split at h <;> simp at h <;> rw [← h.1] <;> exact hq
  | cons c parent ih =>
    intro w w1 e q h hq hl
    have hl1 : parent.length < q.length := by
      simp only [List.length_cons] at hl; omega
    rw [mkdirAllKey] at h
    split at h
    · simp at h; rw [← h.1]; exact hq
    · simp at h; rw [← h.1]; exact hq
    · split at h
      · rename_i wp ep hp
        simp at h; rw [← h.1]; exact ih _ _ _ q hp hq hl1
      · rename_i wp hp
        have hwp := ih _ _ _ q hp hq hl1
        split at h
        · rename_i w2 hm
          obtain ⟨_, r, hr, hw2⟩ := mkdirKey_ok _ _ _ _ hm
          simp at h; rw [← h.1, hw2]
          exact put_leaf_find_longer _ _ _ r q hr (by simpa using hl) (by simpa using hwp)
        · rename_i w2 err hm
          have := mkdirKey_err _ _ _ _ _ hm
          subst this
          split at h <;> simp at h <;> rw [← h.1] <;> exact hwp

/-- When `MkdirAll` makes a directory that was not there, the directory is
empty and has the permission bits asked for. -/
theorem mkdirAllKey_creates (perm : Nat) (rk : List String) (w w1 : World)
    (h : mkdirAllKey perm w rk = (w1, none)) (hq : find w.root rk.reverse = none) :
    find w1.root rk.reverse = some (Node.dir (applyUmask w.umask perm) []) := by
  cases rk with
  | nil => simp [find_nil] at hq
  | cons c parent =>
    rw [mkdirAllKey] at h
    split at h
    · rename_i hf; rw [hq] at hf; simp at hf
    · rename_i hf; rw [hq] at hf; simp at hf
    · split at h
      · simp at h
      · rename_i wp hp
        have hwp := mkdirAllKey_absent perm parent _ _ _ _ hp hq (by simp)
        have hum := mkdirAllKey_umask perm parent _ _ _ hp
        split at h
        · rename_i w2 hm
          obtain ⟨_, r, hr, hw2⟩ := mkdirKey_ok _ _ _ _ hm
          simp at h; rw [← h, hw2, ← hum]
          exact put_find_self _ _ _ _ hr
        · rename_i w2 err hm
          have := mkdirKey_err _ _ _ _ _ hm
          subst this
          split at h
          · rename_i hf; rw [hwp] at hf; simp at hf
          · simp at h

/-- Making a directory in an existing directory that has no entry of that
name: either nothing changes and an error is returned, or the entry is added,
empty. -/
theorem mkdirAllKey_child (perm m : Nat) (cs : List (String × Node)) (k : List String)
    (c : String) (w w2 : World) (e : Option GoError)
    (hk : find w.root k = some (Node.dir m cs)) (hc : child cs c = none)
    (h : mkdirAllKey perm w (c :: k.reverse) = (w2, e)) :
    w2.cwd = w.cwd ∧ w2.umask = w.umask ∧
    ((∃ err, e = some err ∧ w2 = w) ∨
      (e = none ∧
        find w2.root k =
          some (Node.dir m (setChild cs c (Node.dir (applyUmask w.umask perm) []))))) := by
  refine ⟨mkdirAllKey_cwd _ _ _ _ _ h, mkdirAllKey_umask _ _ _ _ _ h, ?_⟩
  have hkc : find w.root (k ++ [c]) = none := by
    rw [find_append, hk]; simp [find, hc]
  have hparent : mkdirAllKey perm w k.reverse = (w, none) := by
    have hk2 : find w.root k.reverse.reverse = some (Node.dir m cs) := by simpa using hk
    generalize k.reverse = rk at hk2
    cases rk <;> rw [mkdirAllKey] <;> simp only [hk2]
  rw [mkdirAllKey] at h
  simp only [List.reverse_cons, List.reverse_reverse, hkc, hparent] at h
  split at h
  · rename_i w3 hm
    obtain ⟨_, r, hr, hw3⟩ := mkdirKey_ok _ _ _ _ hm
    obtain ⟨sub1, hs1, hs2⟩ := put_sub k [c] _ _ _ _ hk hr
    simp only [put, hc, Option.some.injEq] at hs1
    right
    simp only [Prod.mk.injEq] at h
    refine ⟨h.2.symm, ?_⟩
    rw [← h.1, hw3, hs1]
    exact hs2
  · rename_i w3 err hm
    have := mkdirKey_err _ _ _ _ _ hm
    subst this
    left
    split at h
    · rename_i hf; rw [hkc] at hf; simp at hf
    · simp only [Prod.mk.injEq] at h
      exact ⟨err, h.2.symm, h.1.symm⟩

/-- Writing a file that is not there, below an existing entry: either nothing
changes and an error is returned, or the file is added. -/
theorem WriteFile_below (w w3 : World) (filename data : String) (perm : Nat)
    (k rest : List String) (sub : Node) (e : Option GoError)
    (hr : resolve w filename = some (k ++ rest)) (hk : find w.root k = some sub)
    (hn : find sub rest = none)
    (h : WriteFile w filename data perm = (w3, e)) :
    w3.cwd = w.cwd ∧
    ((∃ err, e = some err ∧ w3 = w) ∨
      (e = none ∧
        ∃ sub1, put (some sub) rest (Node.file (applyUmask w.umask perm) data) = some sub1 ∧
          find w3.root k = some sub1)) := by
  have hf : find w.root (k ++ rest) = none := by
    rw [find_append, hk]; simpa using hn
  simp only [WriteFile, hr, hf] at h
  split at h
  · simp only [Prod.mk.injEq] at h
    rw [← h.1]
    exact ⟨rfl, Or.inl ⟨_, h.2.symm, rfl⟩⟩
  · rename_i r hp
    split at h
    · simp only [Prod.mk.injEq] at h
      rw [← h.1]
      exact ⟨rfl, Or.inl ⟨_, h.2.symm, rfl⟩⟩
    · simp only [Prod.mk.injEq] at h
      rw [← h.1]
      refine ⟨rfl, Or.inr ⟨h.2.symm, ?_⟩⟩
      exact put_sub k rest _ _ _ _ hk hp

end os

/-! ## The steps of `initEnv` -/

theorem Abs_cwd (w w1 : World) (h : w1.cwd = w.cwd) (s : String) :
    filepath.Abs w1 s = filepath.Abs w s := by
  simp [filepath.Abs, Getwd, h]

theorem dirMode_perm : (os.ModeDir ||| 0o755) &&& os.ModePerm = 0o755 := by decide

theorem applyUmask_dirMode (u : Nat) :
    applyUmask u (os.ModeDir ||| 0o755) = applyUmask u 0o755 := by
  unfold applyUmask
  rw [dirMode_perm]
  rfl

theorem bin_plain : "bin".data ≠ [] ∧ "bin".data ≠ ['.'] ∧ '/' ∉ "bin".data ∧
    "bin".data ≠ ['.', '.'] := by decide

theorem activate_plain : "activate".data ≠ [] ∧ "activate".data ≠ ['.'] ∧
    '/' ∉ "activate".data ∧ "activate".data ≠ ['.', '.'] := by decide

/-- The first two steps of `initEnv`: the path is looked up and is not there,
then made, an empty directory. -/
theorem initEnv_start (w w1 : World) (envpath : String)
    (hs : ∀ fi, Stat w envpath ≠ .ok fi)
    (hm : MkdirAll w envpath (os.ModeDir ||| 0o755) = (w1, none)) :
    ∃ k, resolve w envpath = some k ∧ find w.root k = none ∧ w1.cwd = w.cwd ∧
      w1.umask = w.umask ∧
      find w1.root k = some (Node.dir (applyUmask w.umask 0o755) []) := by
  unfold MkdirAll at hm
  cases hr : resolve w envpath with
  | none => simp [hr] at hm
  | some k =>
    simp only [hr] at hm
    have hf : find w.root k = none := by
      cases hf : find w.root k with
      | none => rfl
      | some n => exact absurd (by simp [Stat, hr, hf]) (hs (info n))
    refine ⟨k, rfl, hf, mkdirAllKey_cwd _ _ _ _ _ hm, mkdirAllKey_umask _ _ _ _ _ hm, ?_⟩
    have := mkdirAllKey_creates _ _ _ _ hm (by simpa using hf)
    rw [applyUmask_dirMode] at this
    simpa using this

theorem MkdirAll_child (w w2 : World) (path name : String) (k : List String) (m perm : Nat)
    (e : Option GoError) (hr : resolve w path = some k)
    (hn : name.data ≠ [] ∧ name.data ≠ ['.'] ∧ '/' ∉ name.data ∧ name.data ≠ ['.', '.'])
    (hk : find w.root k = some (Node.dir m []))
    (h : MkdirAll w (filepath.Join [path, name]) perm = (w2, e)) :
    w2.cwd = w.cwd ∧ w2.umask = w.umask ∧
    ((∃ err, e = some err ∧ w2 = w) ∨
      (e = none ∧
        find w2.root k = some (Node.dir m [(name, Node.dir (applyUmask w.umask perm) [])]))) := by
  have hrb := resolve_Join w path name k hr hn.1 hn.2.1 hn.2.2.1 hn.2.2.2
  simp only [MkdirAll, hrb, List.reverse_append, List.reverse_cons, List.reverse_nil,
    List.nil_append, List.singleton_append] at h
  have := mkdirAllKey_child perm m [] k name w w2 e hk (by simp [child]) h
  simpa [setChild] using this

/-- The steps of `initEnv` after the directory has been made: whatever the
outcome the directory is still there with its mode, and on success it holds
`bin/activate`, the rendered script, and nothing else. -/
theorem initEnv_steps (w wm w1 : World) (envpath importpath : String) (e : Option GoError)
    (hs : ∀ fi, Stat w envpath ≠ .ok fi)
    (hm : MkdirAll w envpath (os.ModeDir ||| 0o755) = (wm, none))
    (h : initEnv w envpath importpath = (w1, e)) :
    ∃ k, resolve w envpath = some k ∧ find w.root k = none ∧ w1.cwd = w.cwd ∧
      ((∃ err cs, e = some err ∧
          find w1.root k = some (Node.dir (applyUmask w.umask 0o755) cs)) ∨
        (e = none ∧ ∃ cwd goPath, w.cwd = some cwd ∧ filepath.Abs w envpath = .ok goPath ∧
          find w1.root k = some (Node.dir (applyUmask w.umask 0o755)
            [("bin", Node.dir (applyUmask w.umask 0o755)
              [("activate", Node.file (applyUmask w.umask 0o744)
                (fill (filepath.Base cwd) cwd goPath importpath))])]))) := by
  obtain ⟨k, hr, hf, hcwd, hum, hfk⟩ := initEnv_start w wm envpath hs hm
  refine ⟨k, hr, hf, ?_⟩
  have hS : ∃ e0, Stat w envpath = .error e0 := by
    cases hS : Stat w envpath with
    | error e0 => exact ⟨e0, rfl⟩
    | ok fi => exact absurd hS (hs fi)
  obtain ⟨e0, hS⟩ := hS
  simp only [initEnv, hS, hm] at h
  have hrm : resolve wm envpath = some k := by rw [resolve_cwd w wm hcwd]; exact hr
  cases hb : MkdirAll wm (filepath.Join [envpath, "bin"]) (os.ModeDir ||| 0o755) with
  | mk w2 eb =>
    obtain ⟨hcwd2, hum2, hbin⟩ :=
      MkdirAll_child wm w2 envpath "bin" k _ _ eb hrm bin_plain hfk hb
    rw [applyUmask_dirMode, hum] at hbin
    rw [hb] at h
    rcases hbin with ⟨err, rfl, rfl⟩ | ⟨rfl, hfk2⟩
    · simp only [Prod.mk.injEq] at h
      rw [← h.1]
      exact ⟨hcwd, Or.inl ⟨err, [], h.2.symm, hfk⟩⟩
    · have hc2 : w2.cwd = w.cwd := hcwd2.trans hcwd
      have hr2 : resolve w2 envpath = some k := by rw [resolve_cwd w w2 hc2]; exact hr
      cases hP : template.Parse script with
      | error ep =>
        have hp := parse_script
        rw [hP] at hp
        exact Except.noConfusion hp
      | ok tpl =>
        have hE : ∀ p : params, template.Execute tpl p =
            .ok (fill p.ProjectName p.ProjectPath p.GoPath p.ImportPath) := by
          intro p
          have := render_eq_fill p
          unfold render at this
          rw [hP] at this
          exact this
        rw [hP] at h
        simp only at h
        cases hg : Getwd w2 with
        | error eg =>
          simp only [hg, Prod.mk.injEq] at h
          rw [← h.1]
          exact ⟨hc2, Or.inl ⟨eg, _, h.2.symm, hfk2⟩⟩
        | ok pwd =>
          have hpwd : w.cwd = some pwd := by
            rw [← hc2]
            simp only [Getwd] at hg
            cases hc : w2.cwd with
            | none => simp [hc] at hg
            | some d => simp only [hc, Except.ok.injEq] at hg; rw [hg]
          cases ha : filepath.Abs w2 envpath with
          | error ea =>
            simp only [hg, ha, Prod.mk.injEq] at h
            rw [← h.1]
            exact ⟨hc2, Or.inl ⟨ea, _, h.2.symm, hfk2⟩⟩
          | ok goPath =>
            have haw : filepath.Abs w envpath = .ok goPath := by
              rw [← Abs_cwd w w2 hc2]; exact ha
            simp only [hg, ha, hE] at h
            have hrs : resolve w2 (filepath.Join [filepath.Join [envpath, "bin"], "activate"]) =
                some (k ++ ["bin", "activate"]) := by
              have h1 := resolve_Join w2 envpath "bin" k hr2 bin_plain.1 bin_plain.2.1
                bin_plain.2.2.1 bin_plain.2.2.2
              have h2 := resolve_Join w2 _ "activate" _ h1 activate_plain.1 activate_plain.2.1
                activate_plain.2.2.1 activate_plain.2.2.2
              simpa using h2
            cases hw : WriteFile w2 (filepath.Join [filepath.Join [envpath, "bin"], "activate"])
                (fill (filepath.Base pwd) pwd goPath importpath) 0o744 with
            | mk w3 ew =>
              obtain ⟨hc3, hwr⟩ := WriteFile_below w2 w3 _ _ _ k ["bin", "activate"] _ ew hrs hfk2
                (by simp [find, child]) hw
              rw [hw] at h
              rcases hwr with ⟨err, rfl, rfl⟩ | ⟨rfl, sub1, hp, hfk3⟩
              · simp only [Prod.mk.injEq] at h
                rw [← h.1]
                exact ⟨hc2, Or.inl ⟨err, _, h.2.symm, hfk2⟩⟩
              · simp only [Prod.mk.injEq] at h
                rw [← h.1]
                refine ⟨hc3.trans hc2, Or.inr ⟨h.2.symm, pwd, goPath, hpwd, haw, ?_⟩⟩
                simp only [put, child, setChild, if_true, Option.some.injEq] at hp
                rw [hfk3, ← hp, hum2, hum]

/-! ## Lines of the script -/

theorem startsWith_append (pat post : List Char) : startsWith pat (pat ++ post) = true := by
  induction pat with
  | nil => cases post <;> simp [startsWith]
  | cons c cs ih => simp [startsWith, ih]

theorem occursIn_of_startsWith (pat text : List Char) (h : startsWith pat text = true) :
    occursIn pat text = true := by
  cases text with
  | nil => simpa [occursIn] using h
  | cons c cs => simp [occursIn, h]

theorem occursIn_append (pat pre post : List Char) :
    occursIn pat (pre ++ (pat ++ post)) = true := by
  induction pre with
  | nil => exact occursIn_of_startsWith _ _ (startsWith_append pat post)
  | cons c cs ih => simp [occursIn, ih]

theorem containsLine_of_eq (text line pre post : String)
    (h : text = pre ++ ("\n" ++ (line ++ ("\n" ++ post)))) : containsLine text line = true := by
  subst h
  unfold containsLine
  have := occursIn_append ("\n" ++ line ++ "\n").data pre.data post.data
  simpa [String.data_append, List.append_assoc] using this

theorem fill_line_GOENV (a b c d : String) :
    containsLine (fill a b c d) ("export GOENV=" ++ a) = true := by
  apply containsLine_of_eq _ _
    ("\n" ++
      "# This file must be used with \"source activate\" or \". activate\"\n" ++
      "\n" ++
      "if [[ -n \"$\x7bGOENV+1\x7d\" ]]; then\n" ++
      "\tdeactivate\n" ++
      "fi\n")
    ("export GOENV_OLDPS1=$PS1\n" ++
      "export GOENV_OLDGOPATH=$GOPATH\n" ++
      "export GOENV_OLDPATH=$PATH\n" ++
      "\n" ++
      "export GOPATH=" ++
      c ++
      "\n" ++
      "export PATH=\"$GOPATH/bin:$PATH\"\n" ++
      "export PS1=\"($(basename $GOPATH))$PS1\"\n" ++
      "\n" ++
      "mkdir -p $(dirname $GOPATH/src/" ++
      d ++
      ")\n" ++
      "rm -f $GOPATH/src/" ++
      d ++
      "\n" ++
      "ln -s " ++
      b ++
      " $GOPATH/src/" ++
      d ++
      "\n" ++
      "\n" ++
      "deactivate() \x7b\n" ++
      "\texport PS1=$GOENV_OLDPS1\n" ++
      "\texport GOPATH=$GOENV_OLDGOPATH\n" ++
      "\texport PATH=$GOENV_OLDPATH\n" ++
      "\n" ++
      "\tunset GOENV GOENV_OLDPS1 GOENV_OLDPATH GOENV_OLDGOPATH\n" ++
      "\tunset -f deactivate\n" ++
      "\x7d\n")
  simp only [fill, String.append_assoc]

theorem fill_line_GOPATH (a b c d : String) :
    containsLine (fill a b c d) ("export GOPATH=" ++ c) = true := by
  apply containsLine_of_eq _ _
    ("\n" ++
      "# This file must be used with \"source activate\" or \". activate\"\n" ++
      "\n" ++
      "if [[ -n \"$\x7bGOENV+1\x7d\" ]]; then\n" ++
      "\tdeactivate\n" ++
      "fi\n" ++
      "\n" ++
      "export GOENV=" ++
      a ++
      "\n" ++
      "export GOENV_OLDPS1=$PS1\n" ++
      "export GOENV_OLDGOPATH=$GOPATH\n" ++
      "export GOENV_OLDPATH=$PATH\n")
    ("export PATH=\"$GOPATH/bin:$PATH\"\n" ++
      "export PS1=\"($(basename $GOPATH))$PS1\"\n" ++
      "\n" ++
      "mkdir -p $(dirname $GOPATH/src/" ++
      d ++
      ")\n" ++
      "rm -f $GOPATH/src/" ++
      d ++
      "\n" ++
      "ln -s " ++
      b ++
      " $GOPATH/src/" ++
      d ++
      "\n" ++
      "\n" ++
      "deactivate() \x7b\n" ++
      "\texport PS1=$GOENV_OLDPS1\n" ++
      "\texport GOPATH=$GOENV_OLDGOPATH\n" ++
      "\texport PATH=$GOENV_OLDPATH\n" ++
      "\n" ++
      "\tunset GOENV GOENV_OLDPS1 GOENV_OLDPATH GOENV_OLDGOPATH\n" ++
      "\tunset -f deactivate\n" ++
      "\x7d\n")
  simp only [fill, String.append_assoc]

theorem fill_line_ln (a b c d : String) :
    containsLine (fill a b c d) ("ln -s " ++ b ++ " $GOPATH/src/" ++ d) = true := by
  apply containsLine_of_eq _ _
    ("\n" ++
      "# This file must be used with \"source activate\" or \". activate\"\n" ++
      "\n" ++
      "if [[ -n \"$\x7bGOENV+1\x7d\" ]]; then\n" ++
      "\tdeactivate\n" ++
      "fi\n" ++
      "\n" ++
      "export GOENV=" ++
      a ++
      "\n" ++
      "export GOENV_OLDPS1=$PS1\n" ++
      "export GOENV_OLDGOPATH=$GOPATH\n" ++
      "export GOENV_OLDPATH=$PATH\n" ++
      "\n" ++
      "export GOPATH=" ++
      c ++
      "\n" ++
      "export PATH=\"$GOPATH/bin:$PATH\"\n" ++
      "export PS1=\"($(basename $GOPATH))$PS1\"\n" ++
      "\n" ++
      "mkdir -p $(dirname $GOPATH/src/" ++
      d ++
      ")\n" ++
      "rm -f $GOPATH/src/" ++
      d)
    ("\n" ++
      "deactivate() \x7b\n" ++
      "\texport PS1=$GOENV_OLDPS1\n" ++
      "\texport GOPATH=$GOENV_OLDGOPATH\n" ++
      "\texport PATH=$GOENV_OLDPATH\n" ++
      "\n" ++
      "\tunset GOENV GOENV_OLDPS1 GOENV_OLDPATH GOENV_OLDGOPATH\n" ++
      "\tunset -f deactivate\n" ++
      "\x7d\n")
  simp only [fill, String.append_assoc]

/-! ## Arguments, existing paths and the error report -/

/-! ## The help request -/

theorem isHelpRequired_iff (args : List String) :
    isHelpRequired args = true ↔ args.length ≠ 3 := by
  unfold isHelpRequired
  by_cases h : args.length = 3
  · simp [h]
  · simp [h]

/-- C6. With zero, one or more than two user arguments, or with `--help` as
the only user argument, `isHelpRequired` is true and `main` writes the usage
text and a newline to standard output and exits with status 1, leaving the
rest of the state (file system, working directory, standard error) as it was;
with exactly two user arguments `isHelpRequired` is false. -/
theorem help_path (w : World) (prog : String) (user : List String)
    (h : user.length = 0 ∨ user.length = 1 ∨ 2 < user.length ∨ user = ["--help"]) :
    isHelpRequired (prog :: user) = true ∧
    main w (prog :: user) = ({ w with stdout := w.stdout ++ usage ++ "\n" }, 1) ∧
    ∀ a b : String, isHelpRequired [prog, a, b] = false := by
  have hlen : (prog :: user).length ≠ 3 := by
    rcases h with h | h | h | h
    · simp [h]
    · simp [h]
    · simp; omega
    · simp [h]
  have hreq : isHelpRequired (prog :: user) = true := (isHelpRequired_iff _).2 hlen
  refine ⟨hreq, ?_, ?_⟩
  · simp [main, hreq, fmt.Println]
  · intro a b
    simp [isHelpRequired]

/-- Witness of C6: the program run with `--help` alone. -/
theorem help_path_witness :
    isHelpRequired ["goenv", "--help"] = true ∧
    main sampleWorld ["goenv", "--help"] =
      ({ sampleWorld with stdout := sampleWorld.stdout ++ usage ++ "\n" }, 1) ∧
    ∀ a b : String, isHelpRequired ["goenv", a, b] = false :=
  help_path sampleWorld "goenv" ["--help"] (Or.inr (Or.inl rfl))

/-- C10. `isHelpRequired` is true exactly when `os.Args` does not have three
elements, so the comparison with `--help` never changes the result; with two
user arguments of which the first is `--help` it is false, and `main` goes on
to `initEnv` with `--help` as the path of the environment. -/
theorem help_is_length_test :
    (∀ args : List String, isHelpRequired args = true ↔ args.length ≠ 3) ∧
    ∀ (w : World) (prog x : String),
      isHelpRequired [prog, "--help", x] = false ∧
      main w [prog, "--help", x] =
        (match initEnv w "--help" x with
         | (w1, none) => (w1, 0)
         | (w1, some _) =>
             match Stat w1 "--help" with
             | .ok _ => (fmt.FprintfStderr (RemoveAll w1 "--help").1 none, 1)
             | .error err => (fmt.FprintfStderr w1 (some err), 1)) := by
  refine ⟨isHelpRequired_iff, ?_⟩
  intro w prog x
  have h : isHelpRequired [prog, "--help", x] = false := by simp [isHelpRequired]
  refine ⟨h, ?_⟩
  simp [main, h]

/-! ## An existing path -/

/-- C1. When `os.Stat` succeeds on `envpath`, whatever the entry is, `initEnv`
returns the `pathExists` error and the state it returns is the state it was
given. -/
theorem initEnv_existing (w : World) (envpath importpath : String) (fi : FileInfo)
    (h : Stat w envpath = .ok fi) :
    initEnv w envpath importpath = (w, some (errorsNew pathExists)) := by
  simp [initEnv, h]

/-- Witness of C1: an existing directory and an existing file. -/
theorem initEnv_existing_witness :
    Stat occupiedWorld "/tmp/env" = .ok ⟨true, 0o700⟩ ∧
    initEnv occupiedWorld "/tmp/env" "github.com/u/proj" =
      (occupiedWorld, some (errorsNew pathExists)) ∧
    initEnv occupiedWorld "/tmp/env/notes.txt" "github.com/u/proj" =
      (occupiedWorld, some (errorsNew pathExists)) :=
  ⟨rfl, initEnv_existing occupiedWorld "/tmp/env" "github.com/u/proj" ⟨true, 0o700⟩ rfl,
    initEnv_existing occupiedWorld "/tmp/env/notes.txt" "github.com/u/proj" ⟨false, 0o600⟩ rfl⟩

/-- C2, at a failing input.  The directory `/tmp/env` exists and holds the file
`notes.txt`; run with `/tmp/env` as the path of the environment, `main` exits
with status 1 and afterwards neither the directory nor the file exists: the
rollback of `main` has removed the entry that was there before the run. -/
theorem main_removes_existing :
    (Stat occupiedWorld "/tmp/env").toOption = some ⟨true, 0o700⟩ ∧
    contentOf occupiedWorld "/tmp/env/notes.txt" = some "keep me\n" ∧
    (main occupiedWorld ["goenv", "/tmp/env", "github.com/u/proj"]).2 = 1 ∧
    (Stat (main occupiedWorld ["goenv", "/tmp/env", "github.com/u/proj"]).1
      "/tmp/env").toOption = none ∧
    contentOf (main occupiedWorld ["goenv", "/tmp/env", "github.com/u/proj"]).1
      "/tmp/env/notes.txt" = none := by
  decide

/-- C3, at failing inputs.  On an existing path `initEnv` returns the
`pathExists` error, and `main` prints the text of a nil error instead of its
message; when there is no room for the directory `initEnv` returns the error
of `mkdir`, and `main` prints the error of its own `Stat`. -/
theorem main_prints_stat_error :
    (initEnv occupiedWorld "/tmp/env" "github.com/u/proj").2 = some ⟨pathExists⟩ ∧
    (main occupiedWorld ["goenv", "/tmp/env", "github.com/u/proj"]).1.stderr =
      "error: %!s(<nil>)\n" ∧
    (main occupiedWorld ["goenv", "/tmp/env", "github.com/u/proj"]).1.stderr ≠
      "error: " ++ pathExists ++ "\n" ∧
    (initEnv fullWorld "/tmp/env" "github.com/u/proj").2 =
      some ⟨"mkdir /tmp/env: no space left on device"⟩ ∧
    (main fullWorld ["goenv", "/tmp/env", "github.com/u/proj"]).1.stderr =
      "error: stat /tmp/env: no such file or directory\n" ∧
    (main fullWorld ["goenv", "/tmp/env", "github.com/u/proj"]).2 = 1 := by
  decide

/-! ## Rendering and the shell -/

/-! ## The rendered script -/

/-- C8. For every four strings, rendering the template of `script` succeeds,
and the result is `fill` of the four strings: the text of `script` with the
project name once, the Go path once, the project path once and the import path
three times in the places of the actions, each string as it is; `script` itself
is `fill` of the four actions. -/
theorem render_verbatim (p : params) :
    render p = .ok (fill p.ProjectName p.ProjectPath p.GoPath p.ImportPath) ∧
    script = fill "\x7b\x7b.ProjectName\x7d\x7d" "\x7b\x7b.ProjectPath\x7d\x7d"
      "\x7b\x7b.GoPath\x7d\x7d" "\x7b\x7b.ImportPath\x7d\x7d" :=
  ⟨render_eq_fill p, script_eq_fill⟩

/-! ## Activation and deactivation -/

namespace shell

/-- C9 as stated fails.  In a shell where nothing is set, sourcing the script
and calling `deactivate` leaves `GOPATH`, `PS1` and `PATH` set, to the empty
string, where the statement has them not set as before. -/
theorem deactivate_sets_unset_variables :
    emptyEnv.get "GOENV" = none ∧
    emptyEnv.get "GOPATH" = none ∧
    (deactivate (activate sampleParams emptyEnv)).get "GOPATH" = some "" ∧
    (deactivate (activate sampleParams emptyEnv)).get "PS1" = some "" ∧
    (deactivate (activate sampleParams emptyEnv)).get "PATH" = some "" ∧
    ¬ (∀ (p : params) (e : Env), e.get "GOENV" = none →
        (deactivate (activate p e)).get "PS1" = e.get "PS1" ∧
        (deactivate (activate p e)).get "GOPATH" = e.get "GOPATH" ∧
        (deactivate (activate p e)).get "PATH" = e.get "PATH") := by
  refine ⟨by decide, by decide, by decide, by decide, by decide, ?_⟩
  intro h
  have h2 := (h sampleParams emptyEnv (by decide)).2.1
  revert h2
  decide

/-- C9 as amended.  For values of the template that are plain words, in a
shell where `GOENV` is not set: sourcing the script and calling `deactivate`
leaves each of `PS1`, `GOPATH` and `PATH` set to the value it had before, the
empty string when it was not set, and leaves `GOENV`, the three saved
variables and the function `deactivate` undefined.  The hypothesis on the
values is there for the scope of the statement, the scripts that `activate`
describes; the proof does not need it. -/
theorem deactivate_restores (p : params) (e : Env) (hp : plainParams p = true)
    (h : e.get "GOENV" = none) :
    (deactivate (activate p e)).get "PS1" = some (e.expand "PS1") ∧
    (deactivate (activate p e)).get "GOPATH" = some (e.expand "GOPATH") ∧
    (deactivate (activate p e)).get "PATH" = some (e.expand "PATH") ∧
    (deactivate (activate p e)).get "GOENV" = none ∧
    (deactivate (activate p e)).get "GOENV_OLDPS1" = none ∧
    (deactivate (activate p e)).get "GOENV_OLDGOPATH" = none ∧
    (deactivate (activate p e)).get "GOENV_OLDPATH" = none ∧
    (deactivate (activate p e)).deactivateDefined = false := by
  have h' : e.vars "GOENV" = none := h
  simp [deactivate, activate, Env.get, Env.expand, Env.export, Env.unset, h']

/-- Witness of the amended C9: a shell with a prompt and a search path. -/
theorem deactivate_restores_witness :
    plainParams sampleParams = true ∧
    loginEnv.get "GOENV" = none ∧
    (deactivate (activate sampleParams loginEnv)).get "PS1" = some "$ " ∧
    (deactivate (activate sampleParams loginEnv)).get "GOPATH" = some "" ∧
    (deactivate (activate sampleParams loginEnv)).get "PATH" = some "/usr/bin:/bin" ∧
    (deactivate (activate sampleParams loginEnv)).get "GOENV" = none :=
  have h := deactivate_restores sampleParams loginEnv (by decide) (by decide)
  ⟨by decide, by decide, h.1, h.2.1, h.2.2.1, h.2.2.2.1⟩

end shell

/-! ## The layout made, the rollback and the lines of the script -/

theorem Stat_of_find (w : World) (name : String) (k : List String) (n : Node)
    (hr : resolve w name = some k) (hf : find w.root k = some n) :
    Stat w name = .ok (info n) := by
  simp [Stat, hr, hf]

theorem Stat_of_absent (w : World) (name : String) (k : List String)
    (hr : resolve w name = some k) (hf : find w.root k = none) (fi : FileInfo) :
    Stat w name ≠ .ok fi := by
  simp [Stat, hr, hf]

theorem initEnv_ok_start (w w1 : World) (envpath importpath : String)
    (h : initEnv w envpath importpath = (w1, none)) :
    (∀ fi, Stat w envpath ≠ .ok fi) ∧
      ∃ wm, MkdirAll w envpath (os.ModeDir ||| 0o755) = (wm, none) := by
  unfold initEnv at h
  cases hS : Stat w envpath with
  | ok fi => rw [hS] at h; simp at h
  | error e0 =>
    refine ⟨fun fi => by simp, ?_⟩
    rw [hS] at h
    simp only at h
    cases hm : MkdirAll w envpath (os.ModeDir ||| 0o755) with
    | mk wm em =>
      cases em with
      | none => exact ⟨wm, rfl⟩
      | some err => rw [hm] at h; simp at h

/-- What a successful `initEnv` leaves behind. -/
theorem initEnv_ok (w w1 : World) (envpath importpath : String)
    (h : initEnv w envpath importpath = (w1, none)) :
    ∃ k cwd goPath, resolve w envpath = some k ∧ find w.root k = none ∧
      w.cwd = some cwd ∧ w1.cwd = some cwd ∧ filepath.Abs w envpath = .ok goPath ∧
      find w1.root k = some (Node.dir (applyUmask w.umask 0o755)
        [("bin", Node.dir (applyUmask w.umask 0o755)
          [("activate", Node.file (applyUmask w.umask 0o744)
            (fill (filepath.Base cwd) cwd goPath importpath))])]) := by
  obtain ⟨hs, wm, hm⟩ := initEnv_ok_start w w1 envpath importpath h
  obtain ⟨k, hr, hf, hc, hcase⟩ := initEnv_steps w wm w1 envpath importpath none hs hm h
  rcases hcase with ⟨err, cs, he, _⟩ | ⟨_, cwd, goPath, hcwd, ha, hfk⟩
  · cases he
  · exact ⟨k, cwd, goPath, hr, hf, hcwd, hc.trans hcwd, ha, hfk⟩

theorem Abs_computed (w : World) (cwd envpath goPath : String) (hc : w.cwd = some cwd)
    (ha : filepath.Abs w envpath = .ok goPath) : goPath = absAsComputed cwd envpath := by
  unfold filepath.Abs at ha
  unfold absAsComputed
  cases hi : filepath.IsAbs envpath with
  | true => simp only [hi, if_true, Except.ok.injEq] at ha ⊢; exact ha.symm
  | false =>
    simp only [hi, Getwd, hc, Bool.false_eq_true, if_false, Except.ok.injEq] at ha ⊢
    exact ha.symm

/-- The keys and entries of the three paths after a successful `initEnv`. -/
theorem initEnv_entries (w w1 : World) (envpath importpath : String)
    (h : initEnv w envpath importpath = (w1, none)) :
    ∃ k cwd goPath, w.cwd = some cwd ∧ filepath.Abs w envpath = .ok goPath ∧
      resolve w envpath = some k ∧ find w.root k = none ∧
      resolve w1 envpath = some k ∧
      resolve w1 (filepath.Join [envpath, "bin"]) = some (k ++ ["bin"]) ∧
      resolve w1 (filepath.Join [filepath.Join [envpath, "bin"], "activate"]) =
        some (k ++ ["bin"] ++ ["activate"]) ∧
      find w1.root k = some (Node.dir (applyUmask w.umask 0o755)
        [("bin", Node.dir (applyUmask w.umask 0o755)
          [("activate", Node.file (applyUmask w.umask 0o744)
            (fill (filepath.Base cwd) cwd goPath importpath))])]) ∧
      find w1.root (k ++ ["bin"]) = some (Node.dir (applyUmask w.umask 0o755)
        [("activate", Node.file (applyUmask w.umask 0o744)
          (fill (filepath.Base cwd) cwd goPath importpath))]) ∧
      find w1.root (k ++ ["bin"] ++ ["activate"]) =
        some (Node.file (applyUmask w.umask 0o744)
          (fill (filepath.Base cwd) cwd goPath importpath)) := by
  obtain ⟨k, cwd, goPath, hr, hf, hcwd, hcwd1, ha, hfk⟩ := initEnv_ok w w1 envpath importpath h
  have hc : w1.cwd = w.cwd := hcwd1.trans hcwd.symm
  have hr1 : resolve w1 envpath = some k := by rw [resolve_cwd w w1 hc]; exact hr
  have hrb := resolve_Join w1 envpath "bin" k hr1 bin_plain.1 bin_plain.2.1
    bin_plain.2.2.1 bin_plain.2.2.2
  have hrs := resolve_Join w1 _ "activate" _ hrb activate_plain.1 activate_plain.2.1
    activate_plain.2.2.1 activate_plain.2.2.2
  have hfb : find w1.root (k ++ ["bin"]) = some (Node.dir (applyUmask w.umask 0o755)
      [("activate", Node.file (applyUmask w.umask 0o744)
        (fill (filepath.Base cwd) cwd goPath importpath))]) := by
    rw [find_append, hfk]; simp [find, child]
  have hfs : find w1.root (k ++ ["bin"] ++ ["activate"]) =
      some (Node.file (applyUmask w.umask 0o744)
        (fill (filepath.Base cwd) cwd goPath importpath)) := by
    rw [find_append, hfb]; simp [find, child]
  exact ⟨k, cwd, goPath, hcwd, ha, hr, hf, hr1, hrb, hrs, hfk, hfb, hfs⟩

/-- The script a successful `initEnv` writes. -/
theorem initEnv_script (w w1 : World) (envpath importpath cwd : String)
    (hc : w.cwd = some cwd) (h : initEnv w envpath importpath = (w1, none)) :
    contentOf w1 (filepath.Join [filepath.Join [envpath, "bin"], "activate"]) =
      some (fill (filepath.Base cwd) cwd (absAsComputed cwd envpath) importpath) := by
  obtain ⟨k, cwd1, goPath, hcwd, ha, _, _, _, _, hrs, _, _, hfs⟩ :=
    initEnv_entries w w1 envpath importpath h
  have e : cwd1 = cwd := by rw [hcwd] at hc; exact Option.some.inj hc
  subst e
  rw [← Abs_computed w cwd1 envpath goPath hcwd ha]
  simp only [contentOf, hrs, hfs]

/-- C4 (amended). For every state, every `envpath` without a `..` element and
every `importpath`: when `initEnv` returns no error, `envpath` did not exist
before, and afterwards `envpath` and `envpath/bin` are directories whose mode
is 0755 less the bits of the umask, and `envpath/bin/activate` is a regular
file whose mode is 0744 less the bits of the umask and whose content is the
template of the script rendered with `ProjectName` the base name of the
working directory, `ProjectPath` the working directory, `GoPath` the absolute
form of `envpath` and `ImportPath` the string `importpath`.  The hypothesis on
`..` is there for the scope of the statement, the names that `resolve` reads
the way the system does; the proof does not need it. -/
theorem initEnv_layout (w w1 : World) (envpath importpath : String)
    (hdd : ['.', '.'] ∉ filepath.elems envpath.data)
    (h : initEnv w envpath importpath = (w1, none)) :
    (∀ fi, Stat w envpath ≠ .ok fi) ∧
    Stat w1 envpath = .ok ⟨true, applyUmask w.umask 0o755⟩ ∧
    Stat w1 (filepath.Join [envpath, "bin"]) = .ok ⟨true, applyUmask w.umask 0o755⟩ ∧
    Stat w1 (filepath.Join [filepath.Join [envpath, "bin"], "activate"]) =
      .ok ⟨false, applyUmask w.umask 0o744⟩ ∧
    ∃ cwd goPath content, Getwd w = .ok cwd ∧ filepath.Abs w envpath = .ok goPath ∧
      render ⟨filepath.Base cwd, cwd, goPath, importpath⟩ = .ok content ∧
      contentOf w1 (filepath.Join [filepath.Join [envpath, "bin"], "activate"]) =
        some content := by
  obtain ⟨k, cwd, goPath, hcwd, ha, hr, hf, hr1, hrb, hrs, hfk, hfb, hfs⟩ :=
    initEnv_entries w w1 envpath importpath h
  refine ⟨Stat_of_absent w envpath k hr hf, ?_, ?_, ?_, cwd, goPath, _, ?_, ha,
    render_eq_fill _, ?_⟩
  · rw [Stat_of_find w1 envpath k _ hr1 hfk]; rfl
  · rw [Stat_of_find w1 _ _ _ hrb hfb]; rfl
  · rw [Stat_of_find w1 _ _ _ hrs hfs]; rfl
  · simp [Getwd, hcwd]
  · simp only [contentOf, hrs, hfs]

set_option maxRecDepth 1000000 in
theorem initEnv_layout_witness :
    (['.', '.'] ∉ filepath.elems "/tmp/env".data ∧
      initEnv sampleWorld "/tmp/env" "github.com/u/proj" = (builtWorld, none)) ∧
    ((∀ fi, Stat sampleWorld "/tmp/env" ≠ .ok fi) ∧
    Stat builtWorld "/tmp/env" = .ok ⟨true, 0o755⟩ ∧
    Stat builtWorld (filepath.Join ["/tmp/env", "bin"]) = .ok ⟨true, 0o755⟩ ∧
    Stat builtWorld (filepath.Join [filepath.Join ["/tmp/env", "bin"], "activate"]) =
      .ok ⟨false, 0o744⟩ ∧
    ∃ cwd goPath content, Getwd sampleWorld = .ok cwd ∧
      filepath.Abs sampleWorld "/tmp/env" = .ok goPath ∧
      render ⟨filepath.Base cwd, cwd, goPath, "github.com/u/proj"⟩ = .ok content ∧
      contentOf builtWorld (filepath.Join [filepath.Join ["/tmp/env", "bin"], "activate"]) =
        some content) :=
  have hdd : ['.', '.'] ∉ filepath.elems "/tmp/env".data := by decide
  have h : initEnv sampleWorld "/tmp/env" "github.com/u/proj" = (builtWorld, none) := by rfl
  ⟨⟨hdd, h⟩, initEnv_layout sampleWorld builtWorld "/tmp/env" "github.com/u/proj" hdd h⟩

set_option maxRecDepth 1000000 in
/-- C4 (as worded). Under the umask `077`, with `/tmp/env` not there,
`initEnv` returns no error and leaves `/tmp/env` and `/tmp/env/bin` with mode
0700 and `/tmp/env/bin/activate` with mode 0700, not 0755, 0755 and 0744: the
modes of the entries are not the same for every state. -/
theorem initEnv_modes_under_umask :
    (∀ fi, Stat privateWorld "/tmp/env" ≠ .ok fi) ∧
    initEnv privateWorld "/tmp/env" "github.com/u/proj" = (privateBuiltWorld, none) ∧
    Stat privateBuiltWorld "/tmp/env" = .ok ⟨true, 0o700⟩ ∧
    Stat privateBuiltWorld (filepath.Join ["/tmp/env", "bin"]) = .ok ⟨true, 0o700⟩ ∧
    Stat privateBuiltWorld (filepath.Join [filepath.Join ["/tmp/env", "bin"], "activate"]) =
      .ok ⟨false, 0o700⟩ ∧
    ¬ (∀ (w w1 : World) (envpath importpath : String),
        (∀ fi, Stat w envpath ≠ .ok fi) → initEnv w envpath importpath = (w1, none) →
        Stat w1 envpath = .ok ⟨true, 0o755⟩ ∧
        Stat w1 (filepath.Join [envpath, "bin"]) = .ok ⟨true, 0o755⟩ ∧
        Stat w1 (filepath.Join [filepath.Join [envpath, "bin"], "activate"]) =
          .ok ⟨false, 0o744⟩) := by
  have hs : ∀ fi, Stat privateWorld "/tmp/env" ≠ .ok fi :=
    Stat_of_absent privateWorld "/tmp/env" ["tmp", "env"] (by rfl) (by rfl)
  have h : initEnv privateWorld "/tmp/env" "github.com/u/proj" = (privateBuiltWorld, none) := by
    rfl
  have h1 : Stat privateBuiltWorld "/tmp/env" = .ok ⟨true, 0o700⟩ := by rfl
  refine ⟨hs, h, h1, by rfl, by rfl, ?_⟩
  intro hall
  have h2 := (hall privateWorld privateBuiltWorld "/tmp/env" "github.com/u/proj" hs h).1
  rw [h1] at h2
  exact absurd (Except.ok.inj h2) (by decide)

theorem Stat_congr (w w1 : World) (hr : w1.root = w.root) (hc : w1.cwd = w.cwd) (s : String) :
    Stat w1 s = Stat w s := by
  simp [Stat, resolve_cwd w w1 hc, hr]

theorem RemoveAll_removes (w : World) (path : String) (fi0 : FileInfo)
    (hs : Stat w path = .ok fi0) (h : (RemoveAll w path).2 = none) (fi : FileInfo) :
    Stat (RemoveAll w path).1 path ≠ .ok fi := by
  unfold Stat at hs
  cases hr : resolve w path with
  | none => simp [hr] at hs
  | some k =>
    cases hf : find w.root k with
    | none => simp [hr, hf] at hs
    | some n =>
      have hne := resolve_ne_empty w path k hr
      unfold RemoveAll at h ⊢
      simp only [hne, if_false, hr, hf] at h ⊢
      by_cases hd : endsWithDot path = true
      · simp [hd] at h
      · simp only [hd, Bool.false_eq_true, if_false] at h ⊢
        by_cases hb : k = [] ∨ w.busy.any (under k) = true
        · rw [if_pos hb] at h
          simp at h
        · rw [if_neg hb]
          have hk : k ≠ [] := fun e => hb (Or.inl e)
          apply Stat_of_absent _ path k
          · exact (resolve_cwd w _ rfl path).trans hr
          · exact find_del_self k hk _

/-- C5. For every run of `main` with arguments `envpath importpath` in which
`envpath` does not exist, `initEnv` makes the directory `envpath` and then
returns an error, and the recursive delete of the rollback returns no error:
when `initEnv` returns the directory `envpath` is there, with mode 0755 less
the bits of the umask; after the run it does not exist, and the exit status
is 1. -/
theorem main_rollback (w wm w1 : World) (prog envpath importpath : String) (err : GoError)
    (hs : ∀ fi, Stat w envpath ≠ .ok fi)
    (hm : MkdirAll w envpath (os.ModeDir ||| 0o755) = (wm, none))
    (h : initEnv w envpath importpath = (w1, some err))
    (hrm : (RemoveAll w1 envpath).2 = none) :
    Stat w1 envpath = .ok ⟨true, applyUmask w.umask 0o755⟩ ∧
    (∀ fi, Stat (main w [prog, envpath, importpath]).1 envpath ≠ .ok fi) ∧
    (main w [prog, envpath, importpath]).2 = 1 := by
  obtain ⟨k, hr, hf, hc, hcase⟩ := initEnv_steps w wm w1 envpath importpath _ hs hm h
  rcases hcase with ⟨err1, cs, _, hfk⟩ | ⟨he, _⟩
  · have hr1 : resolve w1 envpath = some k := by rw [resolve_cwd w w1 hc]; exact hr
    have hS : Stat w1 envpath = .ok ⟨true, applyUmask w.umask 0o755⟩ := by
      rw [Stat_of_find w1 envpath k _ hr1 hfk]; rfl
    have hmain : main w [prog, envpath, importpath] =
        (fmt.FprintfStderr (RemoveAll w1 envpath).1 none, 1) := by
      simp [main, isHelpRequired, h, hS]
    refine ⟨hS, ?_, ?_⟩
    · intro fi
      rw [hmain]
      have := RemoveAll_removes w1 envpath _ hS hrm fi
      rw [Stat_congr (RemoveAll w1 envpath).1 (fmt.FprintfStderr (RemoveAll w1 envpath).1 none)
        rfl rfl]
      exact this
    · rw [hmain]
  · cases he

set_option maxRecDepth 1000000 in
theorem main_rollback_witness :
    (∀ fi, Stat tightWorld "/tmp/env" ≠ .ok fi) ∧
    initEnv tightWorld "/tmp/env" "github.com/u/proj" =
      (madeWorld, some ⟨"mkdir /tmp/env/bin: no space left on device"⟩) ∧
    Stat madeWorld "/tmp/env" = .ok ⟨true, 0o755⟩ ∧
    (∀ fi, Stat (main tightWorld ["goenv", "/tmp/env", "github.com/u/proj"]).1 "/tmp/env" ≠
      .ok fi) ∧
    (main tightWorld ["goenv", "/tmp/env", "github.com/u/proj"]).2 = 1 :=
  have hs : ∀ fi, Stat tightWorld "/tmp/env" ≠ .ok fi :=
    Stat_of_absent tightWorld "/tmp/env" ["tmp", "env"] (by rfl) (by rfl)
  have h : initEnv tightWorld "/tmp/env" "github.com/u/proj" =
      (madeWorld, some ⟨"mkdir /tmp/env/bin: no space left on device"⟩) := by rfl
  ⟨hs, h, main_rollback tightWorld madeWorld madeWorld "goenv" "/tmp/env" "github.com/u/proj" _
    hs (by rfl) h (by decide)⟩

/-- C7 (amended). For every state with working directory `cwd`, every
`envpath` and every `importpath`: the script a successful `initEnv` writes
contains the line `export GOENV=` followed by the base name of `cwd`, the line
`export GOPATH=` followed by the absolute form of `envpath` as `filepath.Abs`
computes it (the cleaned `envpath` when it is absolute, `cwd` joined with
`envpath` otherwise), and the line `ln -s <cwd> $GOPATH/src/<importpath>`. -/
theorem script_lines (w w1 : World) (envpath importpath cwd : String)
    (hc : w.cwd = some cwd) (h : initEnv w envpath importpath = (w1, none)) :
    ∃ content,
      contentOf w1 (filepath.Join [filepath.Join [envpath, "bin"], "activate"]) = some content ∧
      containsLine content ("export GOENV=" ++ filepath.Base cwd) = true ∧
      containsLine content ("export GOPATH=" ++ absAsComputed cwd envpath) = true ∧
      containsLine content ("ln -s " ++ cwd ++ " $GOPATH/src/" ++ importpath) = true :=
  ⟨_, initEnv_script w w1 envpath importpath cwd hc h, fill_line_GOENV _ _ _ _,
    fill_line_GOPATH _ _ _ _, fill_line_ln _ _ _ _⟩

set_option maxRecDepth 1000000 in
theorem script_lines_witness :
    sampleWorld.cwd = some "/home/u/proj" ∧
    initEnv sampleWorld "/tmp/env" "github.com/u/proj" = (builtWorld, none) ∧
    ∃ content,
      contentOf builtWorld "/tmp/env/bin/activate" = some content ∧
      containsLine content "export GOENV=proj" = true ∧
      containsLine content "export GOPATH=/tmp/env" = true ∧
      containsLine content "ln -s /home/u/proj $GOPATH/src/github.com/u/proj" = true :=
  have h : initEnv sampleWorld "/tmp/env" "github.com/u/proj" = (builtWorld, none) := by rfl
  ⟨rfl, h, script_lines sampleWorld builtWorld "/tmp/env" "github.com/u/proj" "/home/u/proj"
    rfl h⟩

set_option maxRecDepth 1000000 in
/-- C7 (as worded). With working directory `/home/u/proj`, `envpath`
`/tmp/env/` (absolute, not clean) and `importpath` `github.com/u/proj`,
`initEnv` succeeds and the script it writes has the line
`export GOPATH=/tmp/env`; it does not have the line the wording asks for,
`export GOPATH=` followed by the working directory joined with `envpath`,
which is `/home/u/proj/tmp/env`. -/
theorem gopath_line_not_as_worded :
    sampleWorld.cwd = some "/home/u/proj" ∧
    initEnv sampleWorld "/tmp/env/" "github.com/u/proj" = (builtWorld, none) ∧
    absAsWorded "/home/u/proj" "/tmp/env/" = "/home/u/proj/tmp/env" ∧
    ∃ content,
      contentOf builtWorld (filepath.Join [filepath.Join ["/tmp/env/", "bin"], "activate"]) =
        some content ∧
      containsLine content ("export GOPATH=" ++ absAsWorded "/home/u/proj" "/tmp/env/") = false ∧
      containsLine content "export GOPATH=/tmp/env" = true :=
  ⟨rfl, by rfl, by decide,
    fill "proj" "/home/u/proj" "/tmp/env" "github.com/u/proj", by rfl, by decide, by decide⟩

end Goenv
